import Mathlib

/-!
# Projected gradient optimizer (`op/projected_gradient.go`)

A shallow embedding of `ProjectedGradient.Minimize` and its helpers
`isGoodStep`, `newPoint` and `evaluate`.

* Floating point: the source computes in `float32` and accumulates one sum in
  `float64`.  The embedding is parametric in a record `Scalar F D` holding the
  operations the source applies (`-`, `*`, `/`, `<=` on `F`; `+` on `D`; the two
  conversions), so structural results hold for every rounding behaviour.  The
  instance `exactQ` interprets them in the rationals; the instance `ieee`
  rounds the result of every operation to 24 or 53 significant bits.
* Vectors: a `Parameter` is a map from its index domain `Fin n` to `F`;
  `IndexIterator` visits `List.finRange n`; `Set` is `Function.update`.
* Aliasing: `stt := vec` makes `stt` and `vec` name one object, and
  `stt.CloneWithoutCopy()` creates the second one.  `Mem` keeps the contents
  of the two objects, `Buf` names them, and the variables `stt` and `nxt` of
  `Minimize` are values of type `Buf`.
* Loops: both `for` loops of `Minimize` are unbounded, so they take fuel and
  return `none` when it runs out.
* Integers: the counter `k` and the slots of `alpha_moves` are Go `int`s; they
  are unbounded here, since leaving the 64-bit range takes `2^63` steps.
-/

namespace ProjGrad

/-- The arithmetic the source uses: `F` stands for `float32`, `D` for `float64`. -/
structure Scalar (F D : Type) where
  /-- the constant `0` of `F` -/
  zero : F
  /-- `a - b` on `F` -/
  sub : F → F → F
  /-- `a * b` on `F` -/
  mul : F → F → F
  /-- `a / b` on `F` -/
  div : F → F → F
  /-- `a <= b` on `F` -/
  le : F → F → Bool
  /-- `float64(0)` -/
  zeroD : D
  /-- `a + b` on `D` -/
  addD : D → D → D
  /-- the conversion `float64(x)` -/
  toD : F → D
  /-- the conversion `float32(x)` -/
  ofD : D → F

/-- A parameter vector: index domain `Fin n`, values in `F`. -/
abbrev Parameter (F : Type) (n : ℕ) := Fin n → F

/-- Modelled from the spec: the `Projection` type is declared outside the given
sources; `ClipPoint(point)` rewrites `point` in place and
`ClipGradient(point, gradient)` rewrites `gradient` in place (spec §6), so each
is the function from the old contents to the new contents. -/
structure Projection (F : Type) (n : ℕ) where
  /-- new contents of `point` after `ClipPoint(point)` -/
  ClipPoint : Parameter F n → Parameter F n
  /-- new contents of `gradient` after `ClipGradient(point, gradient)` -/
  ClipGradient : Parameter F n → Parameter F n → Parameter F n

/-- Modelled from the spec: the `Function` interface is declared outside the
given sources; `Evaluate(point, gradientOut)` returns the value and overwrites
`gradientOut` (spec §6).  The second argument is the contents of `gradientOut`
at the call, the second component of the result its contents afterwards. -/
structure Function (F : Type) (n : ℕ) where
  /-- value returned and gradient written by `Evaluate(point, gradientOut)` -/
  Evaluate : Parameter F n → Parameter F n → F × Parameter F n

/-- Modelled from the spec: the `StopCriteria` interface is declared outside
the given sources; `Done(point, value, gradient)` is a pure predicate (spec §6). -/
structure StopCriteria (F : Type) (n : ℕ) where
  /-- result of `Done(point, value, gradient)` -/
  Done : Parameter F n → F → Parameter F n → Bool

/-- The struct `ProjectedGradient`. -/
structure ProjectedGradient (F : Type) (n : ℕ) where
  projector : Projection F n
  beta : F
  sigma : F
  alpha : F

/-- The struct `vgpair`. -/
structure vgpair (F : Type) (n : ℕ) where
  value : F
  gradient : Parameter F n

/-- The constructor `NewProjectedGradient`. -/
def NewProjectedGradient {F : Type} {n : ℕ} (projector : Projection F n)
    (beta sigma alpha : F) : ProjectedGradient F n :=
  { projector := projector, beta := beta, sigma := sigma, alpha := alpha }

/-- The two vector objects `Minimize` works on: the caller's `vec` and the
object made by `stt.CloneWithoutCopy()` on line 33. -/
inductive Buf where
  | vec
  | clone
  deriving DecidableEq, Repr

/-- Calls recorded while `Minimize` runs: the calls of the collaborators and of
`newPoint`.  The helper `Fill` and the copy-back loop are not recorded. -/
inductive Event (F : Type) (n : ℕ) where
  /-- `projector.ClipPoint(p)` was called on the object `buf` holding `arg` -/
  | clipPoint (buf : Buf) (arg : Parameter F n)
  /-- `newPoint` was called with target `buf` and step size `alpha` -/
  | newPoint (buf : Buf) (alpha : F)
  /-- `loss.Evaluate(p, _)` was called on the object `buf` holding `point` -/
  | evaluate (buf : Buf) (point : Parameter F n)
  /-- `projector.ClipGradient(point, grad)` was called -/
  | clipGradient (point grad : Parameter F n)
  /-- `stop.Done(point, value, grad)` was called and returned `result` -/
  | done (point : Parameter F n) (value : F) (grad : Parameter F n) (result : Bool)

/-- Contents of the two vector objects, and the calls made so far (newest first). -/
structure Mem (F : Type) (n : ℕ) where
  vec : Parameter F n
  clone : Parameter F n
  log : List (Event F n)

variable {F D : Type} {n : ℕ}

/-- Contents of the object named by `b`. -/
def Mem.get (m : Mem F n) : Buf → Parameter F n
  | Buf.vec => m.vec
  | Buf.clone => m.clone

/-- Replace the contents of the object named by `b`. -/
def Mem.put (m : Mem F n) (b : Buf) (v : Parameter F n) : Mem F n :=
  match b with
  | Buf.vec => { m with vec := v }
  | Buf.clone => { m with clone := v }

/-- Record a call. -/
def Mem.emit (m : Mem F n) (e : Event F n) : Mem F n :=
  { m with log := e :: m.log }

/-- Modelled from the spec: the helper `Fill(vector, scalar)` is declared
outside the given sources; it stores `scalar` at every index (spec §6). -/
def Fill (_v : Parameter F n) (c : F) : Parameter F n := fun _ => c

/-- The function `isGoodStep`: the sufficient decrease condition. -/
def isGoodStep (S : Scalar F D) (pg : ProjectedGradient F n) (m : Mem F n)
    (owts nwts : Buf) (ovg nvg : vgpair F n) : Bool :=
  let valdiff := S.sub nvg.value ovg.value
  let sum := (List.finRange n).foldl
    (fun acc i =>
      S.addD acc (S.toD (S.mul (ovg.gradient i) (S.sub (m.get nwts i) (m.get owts i)))))
    S.zeroD
  S.le valdiff (S.mul pg.sigma (S.ofD sum))

/-- The `Set` loop of `newPoint`: `nwts.Set(i, owts.Get(i) - alpha*grad.Get(i))`
for every index. -/
def stepPoint (S : Scalar F D) (m : Mem F n) (owts nwts : Buf) (grad : Parameter F n)
    (alpha : F) : Mem F n :=
  (List.finRange n).foldl
    (fun h i =>
      h.put nwts (Function.update (h.get nwts) i (S.sub (h.get owts i) (S.mul alpha (grad i)))))
    m

/-- The function `newPoint`: the `Set` loop, then `projector.ClipPoint(nwts)`. -/
def newPoint (S : Scalar F D) (m : Mem F n) (owts nwts : Buf) (grad : Parameter F n)
    (alpha : F) (projector : Projection F n) : Mem F n :=
  let m1 := stepPoint S (m.emit (Event.newPoint nwts alpha)) owts nwts grad alpha
  (m1.emit (Event.clipPoint nwts (m1.get nwts))).put nwts (projector.ClipPoint (m1.get nwts))

/-- The function `evaluate`: zero the gradient buffer of the pair, then call
`loss.Evaluate` on the object `stt`. -/
def evaluate (S : Scalar F D) (loss : Function F n) (m : Mem F n) (stt : Buf)
    (ovalgrad : vgpair F n) : Mem F n × vgpair F n :=
  let g0 := Fill ovalgrad.gradient S.zero
  let r := loss.Evaluate (m.get stt) g0
  (m.emit (Event.evaluate stt (m.get stt)), { value := r.1, gradient := r.2 })

/-- The variables of `Minimize`.  `idx` and `alpha` are the locals of the loop
body; they carry a meaning only inside an iteration.  The two `vgpair`
objects are private to the call, so swapping the pointers `ovalgrad` and
`nvalgrad` is swapping the two records. -/
structure State (F : Type) (n : ℕ) where
  pg : ProjectedGradient F n
  mem : Mem F n
  stt : Buf
  nxt : Buf
  ovalgrad : vgpair F n
  nvalgrad : vgpair F n
  alpha_moves : List ℤ
  current_alpha : F
  k : ℕ
  idx : ℕ
  alpha : F

/-- Lines 28 to 43 of `Minimize`: everything before the outer loop.
`cloneOf` gives the contents of a fresh `CloneWithoutCopy()` object. -/
def setup (S : Scalar F D) (cloneOf : Parameter F n → Parameter F n)
    (pg : ProjectedGradient F n) (loss : Function F n) (vec : Parameter F n) : State F n :=
  let stt := Buf.vec
  let m0 : Mem F n := { vec := vec, clone := cloneOf vec, log := [] }
  let m1 := (m0.emit (Event.clipPoint stt (m0.get stt))).put stt
    (pg.projector.ClipPoint (m0.get stt))
  let nxt := Buf.clone
  let m2 := m1.put nxt (Fill (m1.get nxt) S.zero)
  let ovalgrad0 : vgpair F n := { value := S.zero, gradient := cloneOf (m2.get stt) }
  let e := evaluate S loss m2 stt ovalgrad0
  let nvalgrad : vgpair F n := { value := S.zero, gradient := cloneOf (e.1.get stt) }
  let g := pg.projector.ClipGradient (e.1.get stt) e.2.gradient
  let m3 := e.1.emit (Event.clipGradient (e.1.get stt) e.2.gradient)
  { pg := pg, mem := m3, stt := stt, nxt := nxt,
    ovalgrad := { e.2 with gradient := g }, nvalgrad := nvalgrad,
    alpha_moves := [0, 0, 0, 0, 0], current_alpha := pg.alpha,
    k := 0, idx := 0, alpha := pg.alpha }

/-- Lines 50 and 51, and lines 71 and 72: build the candidate for the step size
`s.alpha` in `nxt` and evaluate it into `nvalgrad`. -/
def trial (S : Scalar F D) (loss : Function F n) (s : State F n) : State F n :=
  let m1 := newPoint S s.mem s.stt s.nxt s.ovalgrad.gradient s.alpha s.pg.projector
  let e := evaluate S loss m1 s.nxt s.nvalgrad
  { s with mem := e.1, nvalgrad := e.2 }

/-- Lines 55 to 58: `move_sum` is the sum of all slots. -/
def moveSum (alpha_moves : List ℤ) : ℤ :=
  (List.range alpha_moves.length).foldl (fun acc i => acc + alpha_moves.getD i 0) 0

/-- Lines 61 to 63: store zero in every slot. -/
def clearMoves (alpha_moves : List ℤ) : List ℤ :=
  (List.range alpha_moves.length).foldl (fun l i => l.set i 0) alpha_moves

/-- Lines 54 to 64: the branch taken when the first trial is a good step. -/
def accept (S : Scalar F D) (s : State F n) : State F n :=
  let s1 := { s with alpha_moves := s.alpha_moves.set s.idx 1 }
  if moveSum s1.alpha_moves > 1 then
    { s1 with alpha := S.div s1.alpha s1.pg.beta, alpha_moves := clearMoves s1.alpha_moves }
  else s1

/-- Lines 69 to 72: the body of the backtracking loop. -/
def shrink (S : Scalar F D) (loss : Function F n) (s : State F n) : State F n :=
  trial S loss
    { s with alpha := S.mul s.alpha s.pg.beta,
             alpha_moves := s.alpha_moves.set s.idx (s.alpha_moves.getD s.idx 0 - 1) }

/-- Lines 68 to 73: `for !pg.isGoodStep(stt, nxt, ovalgrad, nvalgrad) { ... }`. -/
def backtrack (S : Scalar F D) (loss : Function F n) : ℕ → State F n → Option (State F n)
  | 0, _ => none
  | fuel + 1, s =>
    if isGoodStep S s.pg s.mem s.stt s.nxt s.ovalgrad s.nvalgrad then some s
    else backtrack S loss fuel (shrink S loss s)

/-- Lines 76 to 81 and the `k += 1` of the loop header: commit the candidate. -/
def commit (s : State F n) : State F n :=
  let g := s.pg.projector.ClipGradient (s.mem.get s.nxt) s.nvalgrad.gradient
  { s with
    current_alpha := s.alpha,
    stt := s.nxt, nxt := s.stt,
    ovalgrad := { s.nvalgrad with gradient := g }, nvalgrad := s.ovalgrad,
    mem := s.mem.emit (Event.clipGradient (s.mem.get s.nxt) s.nvalgrad.gradient),
    k := s.k + 1 }

/-- Lines 46 to 51: the start of an outer iteration up to the first test. -/
def firstTrial (S : Scalar F D) (loss : Function F n) (s : State F n) : State F n :=
  let idx := s.k % s.alpha_moves.length
  trial S loss
    { s with idx := idx, alpha := s.current_alpha, alpha_moves := s.alpha_moves.set idx 0 }

/-- Lines 46 to 81: one iteration of the outer loop. -/
def outerIter (S : Scalar F D) (loss : Function F n) (fuel : ℕ) (s : State F n) :
    Option (State F n) :=
  let s1 := firstTrial S loss s
  if isGoodStep S s1.pg s1.mem s1.stt s1.nxt s1.ovalgrad s1.nvalgrad then
    some (commit (accept S s1))
  else
    (backtrack S loss fuel s1).map commit

/-- The call `stop.Done(stt, ovalgrad.value, ovalgrad.gradient)` of the loop header. -/
def stopTest (stop : StopCriteria F n) (s : State F n) : Bool :=
  stop.Done (s.mem.get s.stt) s.ovalgrad.value s.ovalgrad.gradient

/-- Record the call of `stopTest`. -/
def noteStop (stop : StopCriteria F n) (s : State F n) : State F n :=
  let e := Event.done (s.mem.get s.stt) s.ovalgrad.value s.ovalgrad.gradient (stopTest stop s)
  { s with mem := s.mem.emit e }

/-- Line 45: the outer loop `for k := 0; !stop.Done(...); k += 1 { ... }`. -/
def mainLoop (S : Scalar F D) (loss : Function F n) (stop : StopCriteria F n) :
    ℕ → State F n → Option (State F n)
  | 0, _ => none
  | fuel + 1, s =>
    if stopTest stop s then some (noteStop stop s)
    else (outerIter S loss fuel (noteStop stop s)).bind (mainLoop S loss stop fuel)

/-- Lines 85 to 88: `vec.Set(i, stt.Get(i))` for every index. -/
def copyBack (m : Mem F n) (stt : Buf) : Mem F n :=
  (List.finRange n).foldl
    (fun h i => h.put Buf.vec (Function.update (h.get Buf.vec) i (h.get stt i)))
    m

/-- What a call of `Minimize` leaves behind: the two results (`err = none` is
`nil`), the contents of the caller's vector, the optimizer object, the calls
made, and (for reference) the variables at the exit of the outer loop. -/
structure Outcome (F : Type) (n : ℕ) where
  value : F
  err : Option Unit
  vec : Parameter F n
  pg : ProjectedGradient F n
  log : List (Event F n)
  final : State F n

/-- The method `Minimize`. -/
def Minimize (S : Scalar F D) (cloneOf : Parameter F n → Parameter F n) (fuel : ℕ)
    (pg : ProjectedGradient F n) (loss : Function F n) (stop : StopCriteria F n)
    (vec : Parameter F n) : Option (Outcome F n) :=
  (mainLoop S loss stop fuel (setup S cloneOf pg loss vec)).map fun s =>
    let m := copyBack s.mem s.stt
    { value := s.ovalgrad.value, err := none, vec := m.vec, pg := s.pg, log := m.log,
      final := s }

/-- Exact arithmetic: both number types are the rationals. -/
def exactQ : Scalar ℚ ℚ where
  zero := 0
  sub := fun a b => a - b
  mul := fun a b => a * b
  div := fun a b => a / b
  le := fun a b => decide (a ≤ b)
  zeroD := 0
  addD := fun a b => a + b
  toD := fun a => a
  ofD := fun a => a

/-- Modelled from the spec: the concrete projection is declared outside the
given sources.  The non-negativity region of spec §6: `ClipPoint` is the
coordinate-wise maximum with 0; `ClipGradient` zeroes a component where the
point is on the boundary and following the gradient would leave the region. -/
def nonneg (n : ℕ) : Projection ℚ n where
  ClipPoint := fun p i => max (p i) 0
  ClipGradient := fun p g i => if p i ≤ 0 ∧ 0 < g i then 0 else g i

/-- The objective of the scenarios of spec §8: `f(x) = (x-3)^2` in one variable. -/
def quadratic : Function ℚ 1 where
  Evaluate := fun p _ => ((p 0 - 3) ^ 2, fun _ => 2 * (p 0 - 3))

/-- A stop criterion that fires when the clipped gradient is zero. -/
def zeroGradient : StopCriteria ℚ 1 where
  Done := fun _ _ g => decide (g 0 = 0)

/-- The same-shape object `CloneWithoutCopy()` returns, zero initialised (spec §3). -/
def zeroClone {F : Type} {n : ℕ} (z : F) : Parameter F n → Parameter F n := fun _ _ => z

/-- The right-hand side of the acceptance test of spec §4.1 (d):
`sigma · Σ_i gradient_i(current) · (candidate_i − current_i)`, read with the
operations of `S`. -/
def decreaseBound (S : Scalar F D) (sigma : F) (current candidate g : Parameter F n) : F :=
  S.mul sigma (S.ofD ((List.finRange n).foldl
    (fun acc i => S.addD acc (S.toD (S.mul (g i) (S.sub (candidate i) (current i)))))
    S.zeroD))

/-- The acceptance test in the words of spec §4.1 (d):
`value(candidate) − value(current) ≤ sigma · Σ_i gradient_i(current) · (candidate_i − current_i)`,
read with the operations of `S`. -/
def sufficientDecrease (S : Scalar F D) (sigma : F) (current candidate g : Parameter F n)
    (vcurrent vcandidate : F) : Bool :=
  S.le (S.sub vcandidate vcurrent) (decreaseBound S sigma current candidate g)

/-- What holds at every head of the outer loop when the projection is the
non-negativity one and the run started from a positive step size: the
optimizer is `pg`, `stt` and `nxt` name different objects, the current point
is non-negative and the committed step size is positive. -/
def LoopInv (pg : ProjectedGradient ℚ n) (s : State ℚ n) : Prop :=
  s.pg = pg ∧ s.stt ≠ s.nxt ∧ (∀ i, 0 ≤ s.mem.get s.stt i) ∧ 0 < s.current_alpha

/-- What an inner step leaves alone: the optimizer, the roles of the two
objects, the current value and gradient, the committed step size, the
iteration counter and slot, and the contents of the current point. -/
def Keeps (s t : State F n) : Prop :=
  t.pg = s.pg ∧ t.stt = s.stt ∧ t.nxt = s.nxt ∧ t.ovalgrad = s.ovalgrad ∧
  t.current_alpha = s.current_alpha ∧ t.k = s.k ∧ t.idx = s.idx ∧
  (s.stt ≠ s.nxt → t.mem.get s.stt = s.mem.get s.stt)

/-- The optimizer of the scenarios of spec §8: non-negativity projection,
`beta = 0.5`, `sigma = 0.1`, `alpha0 = 1`. -/
def scenarioPG : ProjectedGradient ℚ 1 :=
  NewProjectedGradient (nonneg 1) (1 / 2) (1 / 10) 1

/-- The variables of `Minimize` at the entry of the outer loop, in the
scenarios of spec §8 started at `x`. -/
def scenarioStart (x : ℚ) : State ℚ 1 :=
  setup exactQ (zeroClone 0) scenarioPG quadratic (fun _ => x)

/-- The scenario of spec §8 run from `x` with the given fuel. -/
def scenarioRun (fuel : ℕ) (x : ℚ) : Option (Outcome ℚ 1) :=
  Minimize exactQ (zeroClone 0) fuel scenarioPG quadratic zeroGradient (fun _ => x)

/-- The loop of line 45 cut after `j` completed iterations: the variables at
the head of the loop once `j` iterations have run, `none` when the stop
criterion fires earlier or the fuel runs out. -/
def loopPrefix (S : Scalar F D) (loss : Function F n) (stop : StopCriteria F n) :
    ℕ → ℕ → State F n → Option (State F n)
  | _, 0, s => some s
  | 0, _ + 1, _ => none
  | fuel + 1, j + 1, s =>
    if stopTest stop s then none
    else (outerIter S loss fuel (noteStop stop s)).bind (loopPrefix S loss stop fuel j)

/-- Whether a recorded call is a call of `loss.Evaluate`. -/
def Event.isEvaluate : Event F n → Bool
  | Event.evaluate _ _ => true
  | _ => false

/-- Whether a recorded call is a call of `newPoint`. -/
def Event.isNewPoint : Event F n → Bool
  | Event.newPoint _ _ => true
  | _ => false

/-- Every recorded call of `loss.Evaluate` comes directly after a call of
`ClipPoint` on the same object, and the point evaluated is what that call of
`ClipPoint` produced.  (The record is newest first.) -/
def EvalAfterClip (projector : Projection F n) (log : List (Event F n)) : Prop :=
  ∀ pre b p rest, log = pre ++ Event.evaluate b p :: rest →
    ∃ a rest', rest = Event.clipPoint b a :: rest' ∧ p = projector.ClipPoint a

/-- The condition of line 53: whether the first trial of the iteration that
starts in `s` is a good step. -/
def firstTryPasses (S : Scalar F D) (loss : Function F n) (s : State F n) : Bool :=
  isGoodStep S (firstTrial S loss s).pg (firstTrial S loss s).mem (firstTrial S loss s).stt
    (firstTrial S loss s).nxt (firstTrial S loss s).ovalgrad (firstTrial S loss s).nvalgrad

/-- Coordinate `i` of the points passed to `loss.Evaluate`, oldest first. -/
def evaluatedAt (i : Fin n) (log : List (Event F n)) : List F :=
  log.reverse.filterMap fun e =>
    match e with
    | Event.evaluate _ p => some (p i)
    | _ => none

/-- The values passed to `stop.Done`, oldest first: the value at the initial
point and then the value at each committed point. -/
def stopValues (log : List (Event F n)) : List F :=
  log.reverse.filterMap fun e =>
    match e with
    | Event.done _ v _ _ => some v
    | _ => none

/-- The step sizes passed to `newPoint`, oldest first. -/
def trialSteps (log : List (Event F n)) : List F :=
  log.reverse.filterMap fun e =>
    match e with
    | Event.newPoint _ a => some a
    | _ => none

/-- Coordinate `i` of the argument and of the result of each call of
`ClipPoint` made inside `newPoint`, oldest first. -/
def trialClips (projector : Projection F n) (i : Fin n) : List (Event F n) → List (F × F)
  | [] => []
  | Event.clipPoint _ a :: Event.newPoint b x :: rest =>
    trialClips projector i (Event.newPoint b x :: rest) ++ [(a i, projector.ClipPoint a i)]
  | _ :: rest => trialClips projector i rest

/-- An optimizer with the non-negativity projection, `beta = 0.5`,
`sigma = 0.1` and initial step size `0.6`. -/
def growthPG : ProjectedGradient ℚ 1 :=
  NewProjectedGradient (nonneg 1) (1 / 2) (1 / 10) (3 / 5)

/-- A stop criterion that fires when the value is at most `1/100000`. -/
def smallValue : StopCriteria ℚ 1 where
  Done := fun _ v _ => decide (v ≤ 1 / 100000)

/-- The variables at the entry of the outer loop for `growthPG`, the objective
`quadratic` and the initial point `10`. -/
def growthStart : State ℚ 1 :=
  setup exactQ (zeroClone 0) growthPG quadratic (fun _ => 10)

/-- The guard of lines 53 and 59 taken together: whether the iteration that
starts in `s` runs the growth of lines 60 to 63. -/
def growsStep (S : Scalar F D) (loss : Function F n) (s : State F n) : Bool :=
  firstTryPasses S loss s &&
    decide (1 < moveSum ((firstTrial S loss s).alpha_moves.set (firstTrial S loss s).idx 1))

/-- The history has five slots and none of them exceeds `+1`. -/
def SlotsOK (alpha_moves : List ℤ) : Prop :=
  alpha_moves.length = 5 ∧ ∀ j, alpha_moves.getD j 0 ≤ 1

/-- The test of lines 53 and 68 on the variables as they stand:
`pg.isGoodStep(stt, nxt, ovalgrad, nvalgrad)`. -/
def goodStep (S : Scalar F D) (s : State F n) : Bool :=
  isGoodStep S s.pg s.mem s.stt s.nxt s.ovalgrad s.nvalgrad

/-- The variables at the head of the loop after `m` iterations that all passed
on the first try: the counter is `m`, the step size is `alpha0` divided
`m / 2` times by `beta`, and the history is all zero for even `m` and holds a
single `+1`, in the slot of the last iteration, for odd `m`. -/
def AllPass (S : Scalar F D) (beta alpha0 : F) (m : ℕ) (s : State F n) : Prop :=
  s.k = m ∧ s.pg.beta = beta ∧
  s.current_alpha = (fun a => S.div a beta)^[m / 2] alpha0 ∧
  s.alpha_moves = if m % 2 = 0 then [0, 0, 0, 0, 0] else [0, 0, 0, 0, 0].set ((m - 1) % 5) 1

/-- An optimizer with the non-negativity projection, `beta = 0.5`,
`sigma = 0.1` and initial step size `1/8`. -/
def slowPG : ProjectedGradient ℚ 1 :=
  NewProjectedGradient (nonneg 1) (1 / 2) (1 / 10) (1 / 8)

/-- The variables at the entry of the outer loop for `slowPG`, the objective
`quadratic` and the initial point `10`. -/
def slowStart : State ℚ 1 :=
  setup exactQ (zeroClone 0) slowPG quadratic (fun _ => 10)

/-- Whether a recorded call is a call of `stop.Done`. -/
def Event.isDone : Event F n → Bool
  | Event.done _ _ _ _ => true
  | _ => false

/-- Every recorded call of `stop.Done` comes directly after a call of
`ClipGradient`, itself directly after a call of `Evaluate`, all three on the
same point; the value passed is the one `Evaluate` returned there, the
gradient passed is the one `Evaluate` wrote there put through `ClipGradient`,
and the result recorded is the result of `Done` on these arguments.  (The
record is newest first.) -/
def DoneAfterCommit (S : Scalar F D) (projector : Projection F n) (loss : Function F n)
    (stop : StopCriteria F n) (log : List (Event F n)) : Prop :=
  ∀ pre p v g r rest, log = pre ++ Event.done p v g r :: rest →
    ∃ b rest',
      rest = Event.clipGradient p (loss.Evaluate p (fun _ => S.zero)).2 ::
        Event.evaluate b p :: rest' ∧
      v = (loss.Evaluate p (fun _ => S.zero)).1 ∧
      g = projector.ClipGradient p (loss.Evaluate p (fun _ => S.zero)).2 ∧
      r = stop.Done p v g

/-- What the record and the variables look like at a head of the outer loop:
the last two calls are `Evaluate` and `ClipGradient` on the current point, and
`ovalgrad` holds their results. -/
def AtHead (S : Scalar F D) (loss : Function F n) (s : State F n) : Prop :=
  ∃ b rest,
    s.mem.log = Event.clipGradient (s.mem.get s.stt)
        (loss.Evaluate (s.mem.get s.stt) (fun _ => S.zero)).2 ::
      Event.evaluate b (s.mem.get s.stt) :: rest ∧
    s.ovalgrad.value = (loss.Evaluate (s.mem.get s.stt) (fun _ => S.zero)).1 ∧
    s.ovalgrad.gradient = s.pg.projector.ClipGradient (s.mem.get s.stt)
      (loss.Evaluate (s.mem.get s.stt) (fun _ => S.zero)).2

/-- What the record and the variables look like after a trial: the last call
is `Evaluate` on the contents of `nxt`, and `nvalgrad` holds its results. -/
def AfterTrial (S : Scalar F D) (loss : Function F n) (s : State F n) : Prop :=
  ∃ rest,
    s.mem.log = Event.evaluate s.nxt (s.mem.get s.nxt) :: rest ∧
    s.nvalgrad.value = (loss.Evaluate (s.mem.get s.nxt) (fun _ => S.zero)).1 ∧
    s.nvalgrad.gradient = (loss.Evaluate (s.mem.get s.nxt) (fun _ => S.zero)).2

/-- The optimizer of the scenarios of spec §8 with the shrink factor replaced
by `beta = 1`. -/
def stuckPG : ProjectedGradient ℚ 1 :=
  NewProjectedGradient (nonneg 1) 1 (1 / 10) 1

/-- The variables at the entry of the outer loop for `stuckPG`, the objective
`quadratic` and the initial point `0`. -/
def stuckStart : State ℚ 1 :=
  setup exactQ (zeroClone 0) stuckPG quadratic (fun _ => 0)

/-- A stop criterion that never fires. -/
def neverStop : StopCriteria ℚ 1 where
  Done := fun _ _ _ => false

/-- The products `isGoodStep` forms, one per index, in the element type `F`:
`ovg.gradient.Get(i) * (nwts.Get(i) - owts.Get(i))`. -/
def productsF (S : Scalar F D) (g current candidate : Parameter F n) : Fin n → F :=
  fun i => S.mul (g i) (S.sub (candidate i) (current i))

/-- The running sum of `isGoodStep`: each term is converted to `D` and added
in `D`, starting from `float64(0)`. -/
def accumulateD (S : Scalar F D) (t : Fin n → F) : D :=
  (List.finRange n).foldl (fun acc i => S.addD acc (S.toD (t i))) S.zeroD

/-- Floor of the binary logarithm of `m` (0 for `m < 2`); the first argument
bounds the recursion. -/
def log2Floor : ℕ → ℕ → ℕ
  | 0, _ => 0
  | fuel + 1, m => if m < 2 then 0 else log2Floor fuel (m / 2) + 1

/-- Rounding of a rational to `p` significant binary digits, to nearest with
ties to even, as IEEE 754 does for `float32` (`p = 24`) and `float64`
(`p = 53`); the exponent range is taken as unbounded, so there is no overflow,
no underflow and no special value. -/
def roundBits (p : ℕ) (q : ℚ) : ℚ :=
  if q = 0 then 0 else
    let a := if q < 0 then -q else q
    let e0 : ℤ := (log2Floor a.num.natAbs a.num.natAbs : ℤ) - (log2Floor a.den a.den : ℤ)
    let e : ℤ := if a < (2 : ℚ) ^ e0 then e0 - 1 else e0
    let ulp : ℚ := (2 : ℚ) ^ (e - (p : ℤ) + 1)
    let t := q / ulp
    let f := ⌊t⌋
    let r := t - f
    let m : ℤ :=
      if r < 1 / 2 then f else if 1 / 2 < r then f + 1 else if f % 2 = 0 then f else f + 1
    m * ulp

/-- The arithmetic of the source on finite values: `F` is `float32` and `D` is
`float64`, every operation is the exact one followed by `roundBits`. -/
def ieee : Scalar ℚ ℚ where
  zero := 0
  sub := fun a b => roundBits 24 (a - b)
  mul := fun a b => roundBits 24 (a * b)
  div := fun a b => roundBits 24 (a / b)
  le := fun a b => decide (a ≤ b)
  zeroD := 0
  addD := fun a b => roundBits 53 (a + b)
  toD := fun a => a
  ofD := fun a => roundBits 24 a

/-- The inner product in the words of spec §8, computed and accumulated in
double precision: the elements are converted to `float64` first, and the
difference, the product and the sum are `float64` operations. -/
def doubleInnerProduct (g current candidate : Parameter ℚ n) : ℚ :=
  (List.finRange n).foldl
    (fun acc i => roundBits 53 (acc + roundBits 53 (g i * roundBits 53 (candidate i - current i))))
    0

/-- The acceptance test with `doubleInnerProduct` in place of the sum
`isGoodStep` forms. -/
def doubleTest (sigma : ℚ) (g current candidate : Parameter ℚ n) (vcurrent vcandidate : ℚ) :
    Bool :=
  ieee.le (ieee.sub vcandidate vcurrent)
    (ieee.mul sigma (ieee.ofD (doubleInnerProduct g current candidate)))

/-- Two `float32` gradients of length 2. -/
def gradA : Parameter ℚ 2 := fun i => if i = 0 then 1 + 1 / 2 ^ 23 else -1

/-- A second gradient with the same `float32` products against `pointA`. -/
def gradB : Parameter ℚ 2 := fun i => if i = 0 then 1 else -1

/-- A candidate point of `float32` values. -/
def pointA : Parameter ℚ 2 := fun i => if i = 0 then 1 + 1 / 2 ^ 23 else 1 + 1 / 2 ^ 22

/-- A second candidate point of `float32` values. -/
def pointB : Parameter ℚ 2 := fun _ => 1 + 1 / 2 ^ 22

/-- A memory whose current point (in `vec`) is the origin and whose candidate
(in `clone`) is `p`. -/
def memOf (p : Parameter ℚ 2) : Mem ℚ 2 := { vec := fun _ => 0, clone := p, log := [] }

/-- An optimizer with `sigma = 1`. -/
def unitPG : ProjectedGradient ℚ 2 := NewProjectedGradient (nonneg 2) (1 / 2) 1 1

/-! ## Memory -/

@[simp] theorem Mem.get_emit (m : Mem F n) (e : Event F n) (b : Buf) :
    (m.emit e).get b = m.get b := by
  cases b <;> rfl

@[simp] theorem Mem.log_emit (m : Mem F n) (e : Event F n) :
    (m.emit e).log = e :: m.log := rfl

@[simp] theorem Mem.log_put (m : Mem F n) (b : Buf) (v : Parameter F n) :
    (m.put b v).log = m.log := by
  cases b <;> rfl

@[simp] theorem Mem.get_put_same (m : Mem F n) (b : Buf) (v : Parameter F n) :
    (m.put b v).get b = v := by
  cases b <;> rfl

theorem Mem.get_put_other (m : Mem F n) {b c : Buf} (v : Parameter F n) (h : c ≠ b) :
    (m.put b v).get c = m.get c := by
  cases b <;> cases c <;> first | rfl | exact absurd rfl h

/-- The `Set` loop over any list of indices, seen from the target object. -/
theorem setLoop_target (f : Parameter F n → Fin n → F) {owts nwts : Buf} (hne : owts ≠ nwts)
    (l : List (Fin n)) (m : Mem F n) (j : Fin n) :
    (l.foldl (fun h i => h.put nwts (Function.update (h.get nwts) i (f (h.get owts) i))) m).get
        nwts j
      = if j ∈ l then f (m.get owts) j else m.get nwts j := by
  induction l generalizing m with
  | nil => simp
  | cons a l ih =>
    rw [List.foldl_cons, ih]
    have ho : (m.put nwts (Function.update (m.get nwts) a (f (m.get owts) a))).get owts
        = m.get owts := Mem.get_put_other m _ hne
    rw [ho, Mem.get_put_same]
    by_cases hj : j ∈ l
    · simp [hj]
    · by_cases hja : j = a
      · subst hja; simp [hj]
      · simp [hj, hja]

/-- The `Set` loop over any list of indices leaves every other object and the
record of calls alone. -/
theorem setLoop_frame (f : Parameter F n → Fin n → F) (owts nwts : Buf)
    (l : List (Fin n)) (m : Mem F n) :
    (l.foldl (fun h i => h.put nwts (Function.update (h.get nwts) i (f (h.get owts) i))) m).log
        = m.log ∧
    ∀ c, c ≠ nwts →
      (l.foldl (fun h i => h.put nwts (Function.update (h.get nwts) i (f (h.get owts) i))) m).get c
        = m.get c := by
  induction l generalizing m with
  | nil => simp
  | cons a l ih =>
    rw [List.foldl_cons]
    refine ⟨by rw [(ih _).1, Mem.log_put], fun c hc => ?_⟩
    rw [(ih _).2 c hc, Mem.get_put_other _ _ hc]

theorem stepPoint_log (S : Scalar F D) (m : Mem F n) (owts nwts : Buf) (grad : Parameter F n)
    (alpha : F) : (stepPoint S m owts nwts grad alpha).log = m.log :=
  (setLoop_frame (fun v i => S.sub (v i) (S.mul alpha (grad i))) owts nwts _ m).1

theorem stepPoint_other (S : Scalar F D) (m : Mem F n) (owts nwts : Buf) (grad : Parameter F n)
    (alpha : F) {c : Buf} (hc : c ≠ nwts) :
    (stepPoint S m owts nwts grad alpha).get c = m.get c :=
  (setLoop_frame (fun v i => S.sub (v i) (S.mul alpha (grad i))) owts nwts _ m).2 c hc

theorem stepPoint_target (S : Scalar F D) (m : Mem F n) {owts nwts : Buf} (hne : owts ≠ nwts)
    (grad : Parameter F n) (alpha : F) :
    (stepPoint S m owts nwts grad alpha).get nwts
      = fun j => S.sub (m.get owts j) (S.mul alpha (grad j)) := by
  funext j
  have h := setLoop_target (fun v i => S.sub (v i) (S.mul alpha (grad i))) hne
    (List.finRange n) m j
  simpa [stepPoint] using h

theorem newPoint_other (S : Scalar F D) (m : Mem F n) (owts nwts : Buf) (grad : Parameter F n)
    (alpha : F) (projector : Projection F n) {c : Buf} (hc : c ≠ nwts) :
    (newPoint S m owts nwts grad alpha projector).get c = m.get c := by
  unfold newPoint
  simp only []
  rw [Mem.get_put_other _ _ hc, Mem.get_emit, stepPoint_other S _ owts nwts grad alpha hc,
    Mem.get_emit]

theorem newPoint_target (S : Scalar F D) (m : Mem F n) {owts nwts : Buf} (hne : owts ≠ nwts)
    (grad : Parameter F n) (alpha : F) (projector : Projection F n) :
    (newPoint S m owts nwts grad alpha projector).get nwts
      = projector.ClipPoint (fun j => S.sub (m.get owts j) (S.mul alpha (grad j))) := by
  unfold newPoint
  simp only []
  rw [Mem.get_put_same, stepPoint_target S _ hne]
  simp

/-- Whatever the roles, after `newPoint` the target holds an output of `ClipPoint`. -/
theorem newPoint_clipped (S : Scalar F D) (m : Mem F n) (owts nwts : Buf) (grad : Parameter F n)
    (alpha : F) (projector : Projection F n) :
    ∃ a, (newPoint S m owts nwts grad alpha projector).get nwts = projector.ClipPoint a :=
  ⟨_, Mem.get_put_same _ _ _⟩

/-! ## Inner steps -/

theorem isGoodStep_eq (S : Scalar F D) (pg : ProjectedGradient F n) (m : Mem F n)
    (owts nwts : Buf) (ovg nvg : vgpair F n) :
    isGoodStep S pg m owts nwts ovg nvg
      = sufficientDecrease S pg.sigma (m.get owts) (m.get nwts) ovg.gradient ovg.value nvg.value :=
  rfl

theorem Keeps.refl (s : State F n) : Keeps s s :=
  ⟨rfl, rfl, rfl, rfl, rfl, rfl, rfl, fun _ => rfl⟩

theorem Keeps.trans {s t u : State F n} (h1 : Keeps s t) (h2 : Keeps t u) : Keeps s u := by
  obtain ⟨a1, a2, a3, a4, a5, a6, a7, a8⟩ := h1
  obtain ⟨b1, b2, b3, b4, b5, b6, b7, b8⟩ := h2
  refine ⟨b1.trans a1, b2.trans a2, b3.trans a3, b4.trans a4, b5.trans a5, b6.trans a6,
    b7.trans a7, fun hne => ?_⟩
  rw [← a8 hne, ← a2]
  exact b8 (by rw [a2, a3]; exact hne)

theorem trial_keeps (S : Scalar F D) (loss : Function F n) (s : State F n) :
    Keeps s (trial S loss s) := by
  refine ⟨rfl, rfl, rfl, rfl, rfl, rfl, rfl, fun hne => ?_⟩
  simp only [trial, evaluate, Mem.get_emit]
  exact newPoint_other S _ _ _ _ _ _ hne

theorem shrink_keeps (S : Scalar F D) (loss : Function F n) (s : State F n) :
    Keeps s (shrink S loss s) :=
  trial_keeps S loss _

theorem firstTrial_keeps (S : Scalar F D) (loss : Function F n) (s : State F n) :
    (firstTrial S loss s).pg = s.pg ∧ (firstTrial S loss s).stt = s.stt ∧
    (firstTrial S loss s).nxt = s.nxt ∧ (firstTrial S loss s).ovalgrad = s.ovalgrad ∧
    (s.stt ≠ s.nxt → (firstTrial S loss s).mem.get s.stt = s.mem.get s.stt) := by
  refine ⟨rfl, rfl, rfl, rfl, fun hne => ?_⟩
  simp only [firstTrial, trial, evaluate, Mem.get_emit]
  exact newPoint_other S _ _ _ _ _ _ hne

theorem accept_keeps (S : Scalar F D) (s : State F n) :
    (accept S s).pg = s.pg ∧ (accept S s).stt = s.stt ∧ (accept S s).nxt = s.nxt ∧
    (accept S s).ovalgrad = s.ovalgrad ∧ (accept S s).nvalgrad = s.nvalgrad ∧
    (accept S s).mem = s.mem ∧ (accept S s).current_alpha = s.current_alpha ∧
    (accept S s).k = s.k ∧ (accept S s).idx = s.idx := by
  unfold accept
  simp only []
  split <;> exact ⟨rfl, rfl, rfl, rfl, rfl, rfl, rfl, rfl, rfl⟩

/-- The backtracking loop exits only on a good step, and keeps the frame. -/
theorem backtrack_spec (S : Scalar F D) (loss : Function F n) (fuel : ℕ) (s t : State F n)
    (h : backtrack S loss fuel s = some t) :
    isGoodStep S t.pg t.mem t.stt t.nxt t.ovalgrad t.nvalgrad = true ∧ Keeps s t := by
  induction fuel generalizing s with
  | zero => simp [backtrack] at h
  | succ fuel ih =>
    rw [backtrack] at h
    split at h
    · rename_i hg
      cases h
      exact ⟨hg, Keeps.refl _⟩
    · obtain ⟨h1, h2⟩ := ih _ h
      exact ⟨h1, (shrink_keeps S loss s).trans h2⟩

theorem commit_good (S : Scalar F D) (t : State F n)
    (h : isGoodStep S t.pg t.mem t.stt t.nxt t.ovalgrad t.nvalgrad = true) :
    isGoodStep S (commit t).pg (commit t).mem (commit t).nxt (commit t).stt
      (commit t).nvalgrad (commit t).ovalgrad = true := by
  simpa [commit, isGoodStep] using h

/-- Every completed outer iteration is `commit` applied to a state in which the
test of line 53 or of line 68 has just succeeded. -/
theorem outerIter_commit (S : Scalar F D) (loss : Function F n) (fuel : ℕ) (s s' : State F n)
    (h : outerIter S loss fuel s = some s') :
    ∃ t, s' = commit t ∧ isGoodStep S t.pg t.mem t.stt t.nxt t.ovalgrad t.nvalgrad = true ∧
      t.pg = s.pg ∧ t.stt = s.stt ∧ t.nxt = s.nxt ∧ t.ovalgrad = s.ovalgrad ∧
      (s.stt ≠ s.nxt → t.mem.get s.stt = s.mem.get s.stt) := by
  obtain ⟨f1, f2, f3, f4, f5⟩ := firstTrial_keeps S loss s
  unfold outerIter at h
  simp only [] at h
  split at h
  · rename_i hg
    obtain ⟨a1, a2, a3, a4, a5, a6, _⟩ := accept_keeps S (firstTrial S loss s)
    refine ⟨accept S (firstTrial S loss s), (Option.some.inj h).symm, ?_, a1.trans f1,
      a2.trans f2, a3.trans f3, a4.trans f4, fun hne => ?_⟩
    · rw [a1, a2, a3, a4, a5, a6]; exact hg
    · rw [a6]; exact f5 hne
  · obtain ⟨t, ht, hs'⟩ := Option.map_eq_some'.mp h
    obtain ⟨hg, k1, k2, k3, k4, _, _, _, k8⟩ := backtrack_spec S loss fuel _ t ht
    refine ⟨t, hs'.symm, hg, k1.trans f1, k2.trans f2, k3.trans f3, k4.trans f4, fun hne => ?_⟩
    rw [← f5 hne, ← f2]
    exact k8 (by rw [f2, f3]; exact hne)

/-! ## The sufficient decrease law -/

/-- C1: for every completed outer iteration, the committed candidate satisfies
the sufficient decrease test against the point it replaces: after the swap the
test `isGoodStep` holds with the roles of the two objects and the two pairs
exchanged, and (the two objects being distinct) the value at the new current
point minus the value at the replaced point is at most `sigma` times the sum of
`g_i * (candidate_i - current_i)`, `g` being the clipped gradient at the
replaced point.  Both the first-try branch (growth included) and the
backtracking branch are covered. -/
theorem committed_candidate_sufficient_decrease (S : Scalar F D) (loss : Function F n)
    (fuel : ℕ) (s s' : State F n) (h : outerIter S loss fuel s = some s') :
    isGoodStep S s'.pg s'.mem s'.nxt s'.stt s'.nvalgrad s'.ovalgrad = true ∧
    (s.stt ≠ s.nxt →
      sufficientDecrease S s.pg.sigma (s.mem.get s.stt) (s'.mem.get s'.stt)
        s.ovalgrad.gradient s.ovalgrad.value s'.ovalgrad.value = true) := by
  obtain ⟨t, rfl, hg, h1, h2, h3, h4, h5⟩ := outerIter_commit S loss fuel s s' h
  refine ⟨commit_good S t hg, fun hne => ?_⟩
  have hc := commit_good S t hg
  rw [isGoodStep_eq] at hc
  have e1 : (commit t).pg = s.pg := h1
  have e2 : (commit t).mem.get (commit t).nxt = s.mem.get s.stt := by
    simp only [commit, Mem.get_emit]
    rw [h2]; exact h5 hne
  have e3 : (commit t).nvalgrad = s.ovalgrad := h4
  rw [e1, e2, e3] at hc
  exact hc

/-- The first outer iteration of the scenario of spec §8 started at `0`
completes (after one shrink) and satisfies the decrease law. -/
theorem committed_candidate_sufficient_decrease_witness :
    ∃ s', outerIter exactQ quadratic 2 (scenarioStart 0) = some s' ∧
      isGoodStep exactQ s'.pg s'.mem s'.nxt s'.stt s'.nvalgrad s'.ovalgrad = true ∧
      sufficientDecrease exactQ (scenarioStart 0).pg.sigma
        ((scenarioStart 0).mem.get (scenarioStart 0).stt) (s'.mem.get s'.stt)
        (scenarioStart 0).ovalgrad.gradient (scenarioStart 0).ovalgrad.value
        s'.ovalgrad.value = true := by
  have hsome : (outerIter exactQ quadratic 2 (scenarioStart 0)).isSome = true := by decide!
  obtain ⟨s', hs'⟩ := Option.isSome_iff_exists.mp hsome
  have hw := committed_candidate_sufficient_decrease exactQ quadratic 2 _ s' hs'
  exact ⟨s', hs', hw.1, hw.2 (by decide)⟩

/-! ## The two loops -/

theorem backtrack_inv (S : Scalar F D) (loss : Function F n) (Q : State F n → Prop)
    (hshr : ∀ u, Q u → Q (shrink S loss u)) (fuel : ℕ) (s t : State F n) (hs : Q s)
    (h : backtrack S loss fuel s = some t) : Q t := by
  induction fuel generalizing s with
  | zero => simp [backtrack] at h
  | succ fuel ih =>
    rw [backtrack] at h
    split at h
    · cases h; exact hs
    · exact ih _ (hshr _ hs) h

theorem outerIter_inv (S : Scalar F D) (loss : Function F n) (Q : State F n → Prop)
    (hacc : ∀ u, Q u → Q (accept S u)) (hshr : ∀ u, Q u → Q (shrink S loss u))
    (fuel : ℕ) (s s' : State F n) (h0 : Q (firstTrial S loss s))
    (h : outerIter S loss fuel s = some s') :
    ∃ t, s' = commit t ∧ Q t ∧
      isGoodStep S t.pg t.mem t.stt t.nxt t.ovalgrad t.nvalgrad = true ∧
      t.pg = s.pg ∧ t.stt = s.stt ∧ t.nxt = s.nxt ∧ t.ovalgrad = s.ovalgrad ∧
      (s.stt ≠ s.nxt → t.mem.get s.stt = s.mem.get s.stt) := by
  obtain ⟨f1, f2, f3, f4, f5⟩ := firstTrial_keeps S loss s
  unfold outerIter at h
  simp only [] at h
  split at h
  · rename_i hg
    obtain ⟨a1, a2, a3, a4, a5, a6, _⟩ := accept_keeps S (firstTrial S loss s)
    refine ⟨_, (Option.some.inj h).symm, hacc _ h0, ?_, a1.trans f1, a2.trans f2, a3.trans f3,
      a4.trans f4, fun hne => ?_⟩
    · rw [a1, a2, a3, a4, a5, a6]; exact hg
    · rw [a6]; exact f5 hne
  · obtain ⟨t, ht, hs'⟩ := Option.map_eq_some'.mp h
    obtain ⟨hg, k1, k2, k3, k4, _, _, _, k8⟩ := backtrack_spec S loss fuel _ t ht
    refine ⟨t, hs'.symm, backtrack_inv S loss Q hshr fuel _ t h0 ht, hg, k1.trans f1,
      k2.trans f2, k3.trans f3, k4.trans f4, fun hne => ?_⟩
    rw [← f5 hne, ← f2]
    exact k8 (by rw [f2, f3]; exact hne)

theorem mainLoop_inv (S : Scalar F D) (loss : Function F n) (stop : StopCriteria F n)
    (P : State F n → Prop) (hnote : ∀ s, P s → P (noteStop stop s))
    (hstep : ∀ fuel s s', P s → outerIter S loss fuel s = some s' → P s')
    (fuel : ℕ) (s t : State F n) (hs : P s) (h : mainLoop S loss stop fuel s = some t) :
    P t := by
  induction fuel generalizing s with
  | zero => simp [mainLoop] at h
  | succ fuel ih =>
    rw [mainLoop] at h
    split at h
    · cases h; exact hnote _ hs
    · obtain ⟨u, hu, ht⟩ := Option.bind_eq_some.mp h
      exact ih u (hstep fuel _ u (hnote _ hs) hu) ht

theorem mainLoop_exit (S : Scalar F D) (loss : Function F n) (stop : StopCriteria F n)
    (fuel : ℕ) (s t : State F n) (h : mainLoop S loss stop fuel s = some t) :
    ∃ u, t = noteStop stop u ∧ stopTest stop u = true := by
  induction fuel generalizing s with
  | zero => simp [mainLoop] at h
  | succ fuel ih =>
    rw [mainLoop] at h
    split at h
    · rename_i hd
      exact ⟨s, (Option.some.inj h).symm, hd⟩
    · obtain ⟨u, _, ht⟩ := Option.bind_eq_some.mp h
      exact ih u ht

/-! ## The final write to the caller's vector -/

theorem Mem.put_get_self (m : Mem F n) (b : Buf) : m.put b (m.get b) = m := by
  cases b <;> rfl

theorem copyBack_log (m : Mem F n) (stt : Buf) : (copyBack m stt).log = m.log :=
  (setLoop_frame (fun v i => v i) stt Buf.vec _ m).1

theorem copyBack_self (l : List (Fin n)) (m : Mem F n) :
    l.foldl (fun h i => h.put Buf.vec (Function.update (h.get Buf.vec) i (h.get Buf.vec i))) m
      = m := by
  induction l generalizing m with
  | nil => rfl
  | cons a l ih =>
    rw [List.foldl_cons, Function.update_eq_self, Mem.put_get_self, ih]

theorem copyBack_vec (m : Mem F n) (stt : Buf) : (copyBack m stt).vec = m.get stt := by
  cases stt with
  | vec => unfold copyBack; rw [copyBack_self]; rfl
  | clone =>
    funext j
    have h := setLoop_target (fun v i => v i) (show Buf.clone ≠ Buf.vec by decide)
      (List.finRange n) m j
    simpa [copyBack] using h

/-! ## Facts about all runs -/

theorem commit_pg (t : State F n) : (commit t).pg = t.pg := rfl

theorem noteStop_pg (stop : StopCriteria F n) (s : State F n) : (noteStop stop s).pg = s.pg := rfl

theorem outerIter_pg (S : Scalar F D) (loss : Function F n) (fuel : ℕ) (s s' : State F n)
    (h : outerIter S loss fuel s = some s') : s'.pg = s.pg := by
  obtain ⟨t, rfl, _, h1, _⟩ := outerIter_commit S loss fuel s s' h
  exact h1

theorem mainLoop_pg (S : Scalar F D) (loss : Function F n) (stop : StopCriteria F n)
    (fuel : ℕ) (s t : State F n) (h : mainLoop S loss stop fuel s = some t) : t.pg = s.pg :=
  mainLoop_inv S loss stop (fun u => u.pg = s.pg) (fun _ hu => hu)
    (fun fuel u u' hu hstep => (outerIter_pg S loss fuel u u' hstep).trans hu) fuel s t rfl h

/-- What `trial` adds to the record: a call of `newPoint`, the call of
`ClipPoint` inside it, and the call of `Evaluate` on the clipped point. -/
theorem trial_log (S : Scalar F D) (loss : Function F n) (s : State F n) :
    ∃ raw, (trial S loss s).mem.log
        = Event.evaluate s.nxt (s.pg.projector.ClipPoint raw) :: Event.clipPoint s.nxt raw ::
            Event.newPoint s.nxt s.alpha :: s.mem.log ∧
      (trial S loss s).mem.get s.nxt = s.pg.projector.ClipPoint raw := by
  refine ⟨(stepPoint S (s.mem.emit (Event.newPoint s.nxt s.alpha)) s.stt s.nxt
    s.ovalgrad.gradient s.alpha).get s.nxt, ?_, ?_⟩
  · simp [trial, evaluate, newPoint, stepPoint_log]
  · simp [trial, evaluate, newPoint]

/-- The value in `nvalgrad` after `trial` is what `Evaluate` returned at the
contents of `nxt`. -/
theorem trial_value (S : Scalar F D) (loss : Function F n) (s : State F n) :
    (trial S loss s).nvalgrad.value
      = (loss.Evaluate ((trial S loss s).mem.get (trial S loss s).nxt) (fun _ => S.zero)).1 := by
  simp only [trial, evaluate, Mem.get_emit]
  rfl

/-- At every head of the outer loop, `ovalgrad.value` is what `Evaluate`
returned at the contents of `stt`. -/
theorem outerIter_value (S : Scalar F D) (loss : Function F n) (fuel : ℕ) (s s' : State F n)
    (h : outerIter S loss fuel s = some s') :
    s'.ovalgrad.value = (loss.Evaluate (s'.mem.get s'.stt) (fun _ => S.zero)).1 := by
  obtain ⟨t, rfl, ht⟩ := outerIter_inv S loss
    (fun u => u.nvalgrad.value = (loss.Evaluate (u.mem.get u.nxt) (fun _ => S.zero)).1)
    (fun u hu => by
      obtain ⟨_, _, a3, _, a5, a6, _⟩ := accept_keeps S u
      rw [a3, a5, a6]; exact hu)
    (fun u _ => trial_value S loss _) fuel s s' (trial_value S loss _) h
  simpa [commit] using ht.1

theorem setup_value (S : Scalar F D) (cloneOf : Parameter F n → Parameter F n)
    (pg : ProjectedGradient F n) (loss : Function F n) (vec : Parameter F n) :
    (setup S cloneOf pg loss vec).mem.get (setup S cloneOf pg loss vec).stt
        = pg.projector.ClipPoint vec ∧
    (setup S cloneOf pg loss vec).ovalgrad.value
        = (loss.Evaluate (pg.projector.ClipPoint vec) (fun _ => S.zero)).1 ∧
    (setup S cloneOf pg loss vec).ovalgrad.gradient
        = pg.projector.ClipGradient (pg.projector.ClipPoint vec)
            (loss.Evaluate (pg.projector.ClipPoint vec) (fun _ => S.zero)).2 ∧
    (setup S cloneOf pg loss vec).mem.log
        = [Event.clipGradient (pg.projector.ClipPoint vec)
              (loss.Evaluate (pg.projector.ClipPoint vec) (fun _ => S.zero)).2,
            Event.evaluate Buf.vec (pg.projector.ClipPoint vec),
            Event.clipPoint Buf.vec vec] := by
  refine ⟨rfl, rfl, rfl, rfl⟩

/-! ## Stopping at the initial point -/

/-- C3: if `stop.Done` returns true on its first call (made on the clipped
initial point, the value `Evaluate` returned there and the clipped gradient),
`Minimize` returns with any positive fuel, no iteration has run, `Evaluate` was
called exactly once, `newPoint` was never called, and the value returned is the
one `Evaluate` produced at the clipped initial point. -/
theorem stop_at_initial_point (S : Scalar F D) (cloneOf : Parameter F n → Parameter F n)
    (fuel : ℕ) (pg : ProjectedGradient F n) (loss : Function F n) (stop : StopCriteria F n)
    (vec : Parameter F n)
    (h : stop.Done (pg.projector.ClipPoint vec)
        (loss.Evaluate (pg.projector.ClipPoint vec) (fun _ => S.zero)).1
        (pg.projector.ClipGradient (pg.projector.ClipPoint vec)
          (loss.Evaluate (pg.projector.ClipPoint vec) (fun _ => S.zero)).2) = true) :
    ∃ r, Minimize S cloneOf (fuel + 1) pg loss stop vec = some r ∧
      r.value = (loss.Evaluate (pg.projector.ClipPoint vec) (fun _ => S.zero)).1 ∧
      r.final.k = 0 ∧
      (r.log.filter Event.isEvaluate).length = 1 ∧
      (r.log.filter Event.isNewPoint).length = 0 ∧
      r.vec = pg.projector.ClipPoint vec := by
  obtain ⟨e1, e2, e3, e4⟩ := setup_value S cloneOf pg loss vec
  have hs : stopTest stop (setup S cloneOf pg loss vec) = true := by
    unfold stopTest
    rw [e1, e2, e3]; exact h
  have hrun : mainLoop S loss stop (fuel + 1) (setup S cloneOf pg loss vec)
      = some (noteStop stop (setup S cloneOf pg loss vec)) := by
    rw [mainLoop, if_pos hs]
  refine ⟨_, by rw [Minimize, hrun]; rfl, e2, rfl, ?_, ?_, ?_⟩
  · simp only [copyBack_log, noteStop, Mem.log_emit]
    rw [e4]
    simp [Event.isEvaluate]
  · simp only [copyBack_log, noteStop, Mem.log_emit]
    rw [e4]
    simp [Event.isNewPoint]
  · simp only [copyBack_vec, noteStop, Mem.get_emit]
    exact e1

/-- The scenario of spec §8 started at the minimizer `x = 3`: the stop
criterion fires on the first call. -/
theorem stop_at_initial_point_witness :
    ∃ r, Minimize exactQ (zeroClone 0) (0 + 1) scenarioPG quadratic zeroGradient (fun _ => 3)
        = some r ∧
      r.value = (quadratic.Evaluate (scenarioPG.projector.ClipPoint (fun _ => 3))
        (fun _ => exactQ.zero)).1 ∧
      r.final.k = 0 ∧
      (r.log.filter Event.isEvaluate).length = 1 ∧
      (r.log.filter Event.isNewPoint).length = 0 ∧
      r.vec = scenarioPG.projector.ClipPoint (fun _ => 3) :=
  stop_at_initial_point exactQ (zeroClone 0) 0 scenarioPG quadratic zeroGradient (fun _ => 3)
    (by decide!)

theorem loopPrefix_inv (S : Scalar F D) (loss : Function F n) (stop : StopCriteria F n)
    (P : State F n → Prop) (hnote : ∀ s, P s → P (noteStop stop s))
    (hstep : ∀ fuel s s', P s → outerIter S loss fuel s = some s' → P s')
    (fuel j : ℕ) (s t : State F n) (hs : P s) (h : loopPrefix S loss stop fuel j s = some t) :
    P t := by
  induction j generalizing fuel s with
  | zero =>
    cases fuel <;> (rw [loopPrefix] at h; cases h; exact hs)
  | succ j ih =>
    cases fuel with
    | zero => simp [loopPrefix] at h
    | succ fuel =>
      rw [loopPrefix] at h
      split at h
      · cases h
      · obtain ⟨u, hu, ht⟩ := Option.bind_eq_some.mp h
        exact ih fuel u (hstep fuel _ u (hnote _ hs) hu) ht

theorem Minimize_some (S : Scalar F D) (cloneOf : Parameter F n → Parameter F n) (fuel : ℕ)
    (pg : ProjectedGradient F n) (loss : Function F n) (stop : StopCriteria F n)
    (vec : Parameter F n) (r : Outcome F n)
    (h : Minimize S cloneOf fuel pg loss stop vec = some r) :
    mainLoop S loss stop fuel (setup S cloneOf pg loss vec) = some r.final ∧
    r.value = r.final.ovalgrad.value ∧ r.err = none ∧
    r.vec = r.final.mem.get r.final.stt ∧ r.pg = r.final.pg ∧ r.log = r.final.mem.log := by
  unfold Minimize at h
  obtain ⟨t, ht, hr⟩ := Option.map_eq_some'.mp h
  subst hr
  exact ⟨ht, rfl, rfl, copyBack_vec _ _, rfl, copyBack_log _ _⟩

theorem outerIter_k (S : Scalar F D) (loss : Function F n) (fuel : ℕ) (s s' : State F n)
    (h : outerIter S loss fuel s = some s') : s'.k ≠ 0 := by
  obtain ⟨t, rfl, _⟩ := outerIter_commit S loss fuel s s' h
  exact Nat.succ_ne_zero _

/-! ## The result of a run -/

/-- C5: when `Minimize` returns, the caller's vector holds at every index the
value of the final current point (the contents of `stt` at the exit of the
outer loop, whichever of the two objects `stt` names then; the clipped
initial point when no iteration ran), and the value returned is the one
`Evaluate` returned at exactly that point. -/
theorem result_is_final_point (S : Scalar F D) (cloneOf : Parameter F n → Parameter F n)
    (fuel : ℕ) (pg : ProjectedGradient F n) (loss : Function F n) (stop : StopCriteria F n)
    (vec : Parameter F n) (r : Outcome F n)
    (h : Minimize S cloneOf fuel pg loss stop vec = some r) :
    mainLoop S loss stop fuel (setup S cloneOf pg loss vec) = some r.final ∧
    (∀ i, r.vec i = r.final.mem.get r.final.stt i) ∧
    r.value = (loss.Evaluate (r.final.mem.get r.final.stt) (fun _ => S.zero)).1 ∧
    (r.final.k = 0 → r.final.mem.get r.final.stt = pg.projector.ClipPoint vec) := by
  obtain ⟨hloop, hv, _, hvec, _, _⟩ := Minimize_some S cloneOf fuel pg loss stop vec r h
  obtain ⟨e1, e2, _, _⟩ := setup_value S cloneOf pg loss vec
  have hinv := mainLoop_inv S loss stop
    (fun u => u.ovalgrad.value = (loss.Evaluate (u.mem.get u.stt) (fun _ => S.zero)).1 ∧
      (u.k = 0 → u.mem.get u.stt = pg.projector.ClipPoint vec))
    (fun u hu => by simpa [noteStop] using hu)
    (fun fuel u u' _ hstep =>
      ⟨outerIter_value S loss fuel u u' hstep,
        fun hk => absurd hk (outerIter_k S loss fuel u u' hstep)⟩)
    fuel _ r.final ⟨by rw [e1, e2], fun _ => e1⟩ hloop
  exact ⟨hloop, fun i => by rw [hvec], hv.trans hinv.1, hinv.2⟩

/-- The two scenarios of spec §8: started at `0` the run ends with `stt` naming
the second object, started at `10` with `stt` naming the caller's vector. -/
theorem result_is_final_point_witness :
    (∃ r, scenarioRun 3 0 = some r ∧ r.final.stt = Buf.clone ∧
      (∀ i, r.vec i = r.final.mem.get r.final.stt i) ∧
      r.value = (quadratic.Evaluate (r.final.mem.get r.final.stt) (fun _ => exactQ.zero)).1) ∧
    (∃ r, scenarioRun 4 10 = some r ∧ r.final.stt = Buf.vec ∧
      (∀ i, r.vec i = r.final.mem.get r.final.stt i) ∧
      r.value = (quadratic.Evaluate (r.final.mem.get r.final.stt) (fun _ => exactQ.zero)).1) := by
  have h0 : (scenarioRun 3 0).map (fun r => r.final.stt) = some Buf.clone := by decide!
  have h10 : (scenarioRun 4 10).map (fun r => r.final.stt) = some Buf.vec := by decide!
  obtain ⟨r0, hr0, hs0⟩ := Option.map_eq_some'.mp h0
  obtain ⟨r10, hr10, hs10⟩ := Option.map_eq_some'.mp h10
  have w0 := result_is_final_point exactQ (zeroClone 0) 3 scenarioPG quadratic zeroGradient
    (fun _ => 0) r0 hr0
  have w10 := result_is_final_point exactQ (zeroClone 0) 4 scenarioPG quadratic zeroGradient
    (fun _ => 10) r10 hr10
  exact ⟨⟨r0, hr0, hs0, w0.2.1, w0.2.2.1⟩, ⟨r10, hr10, hs10, w10.2.1, w10.2.2.1⟩⟩

/-! ## The optimizer object is not written -/

/-- C10: `Minimize` leaves the fields of the optimizer as `NewProjectedGradient`
set them; every call starts with `current_alpha` equal to the `alpha` given to
the constructor and with five zero history slots; so a second call on the same
arguments, made with the optimizer the first call left behind, returns the same
outcome (value and vector included). -/
theorem Minimize_keeps_optimizer (S : Scalar F D) (cloneOf : Parameter F n → Parameter F n)
    (fuel : ℕ) (projector : Projection F n) (beta sigma alpha : F) (loss : Function F n)
    (stop : StopCriteria F n) (vec : Parameter F n) (r : Outcome F n)
    (h : Minimize S cloneOf fuel (NewProjectedGradient projector beta sigma alpha) loss stop vec
      = some r) :
    r.pg = NewProjectedGradient projector beta sigma alpha ∧
    (r.pg.beta = beta ∧ r.pg.sigma = sigma ∧ r.pg.alpha = alpha) ∧
    (setup S cloneOf r.pg loss vec).current_alpha = alpha ∧
    (setup S cloneOf r.pg loss vec).alpha_moves = [0, 0, 0, 0, 0] ∧
    Minimize S cloneOf fuel r.pg loss stop vec = some r := by
  obtain ⟨hloop, _, _, _, hpg, _⟩ := Minimize_some S cloneOf fuel _ loss stop vec r h
  have e : r.pg = NewProjectedGradient projector beta sigma alpha :=
    hpg.trans (mainLoop_pg S loss stop fuel _ r.final hloop)
  rw [e]
  exact ⟨rfl, ⟨rfl, rfl, rfl⟩, rfl, rfl, h⟩

/-- The scenario of spec §8 started at `0`: the run shrinks its step size to
`1/2`, the optimizer keeps `alpha = 1`, and a second call gives the same outcome. -/
theorem Minimize_keeps_optimizer_witness :
    ∃ r, Minimize exactQ (zeroClone 0) 3 (NewProjectedGradient (nonneg 1) (1 / 2) (1 / 10) 1)
        quadratic zeroGradient (fun _ => 0) = some r ∧
      r.final.current_alpha = 1 / 2 ∧ r.pg.alpha = 1 ∧
      Minimize exactQ (zeroClone 0) 3 r.pg quadratic zeroGradient (fun _ => 0) = some r := by
  have h0 : (Minimize exactQ (zeroClone 0) 3 (NewProjectedGradient (nonneg 1) (1 / 2) (1 / 10) 1)
      quadratic zeroGradient (fun _ => 0)).map (fun r => r.final.current_alpha)
        = some (1 / 2) := by decide!
  obtain ⟨r, hr, ha⟩ := Option.map_eq_some'.mp h0
  have w := Minimize_keeps_optimizer exactQ (zeroClone 0) 3 (nonneg 1) (1 / 2) (1 / 10) 1
    quadratic zeroGradient (fun _ => 0) r hr
  exact ⟨r, hr, ha, w.2.1.2.2, w.2.2.2.2⟩

/-! ## Only clipped points are evaluated -/

theorem evalAfterClip_cons (projector : Projection F n) (e : Event F n) (l : List (Event F n))
    (he : e.isEvaluate = false) (h : EvalAfterClip projector l) :
    EvalAfterClip projector (e :: l) := by
  intro pre b p rest heq
  cases pre with
  | nil =>
    rw [List.nil_append] at heq
    injection heq with h1 _
    subst h1
    simp [Event.isEvaluate] at he
  | cons x pre =>
    rw [List.cons_append] at heq
    injection heq with _ h2
    exact h pre b p rest h2

theorem evalAfterClip_eval (projector : Projection F n) (b : Buf) (a : Parameter F n)
    (l : List (Event F n)) (h : EvalAfterClip projector l) :
    EvalAfterClip projector
      (Event.evaluate b (projector.ClipPoint a) :: Event.clipPoint b a :: l) := by
  intro pre b' p rest heq
  cases pre with
  | nil =>
    rw [List.nil_append] at heq
    injection heq with h1 h2
    injection h1 with hb hp
    subst hb hp
    exact ⟨a, l, h2.symm, rfl⟩
  | cons x pre =>
    rw [List.cons_append] at heq
    injection heq with _ h2
    exact evalAfterClip_cons projector (Event.clipPoint b a) l rfl h pre b' p rest h2

theorem trial_evalAfterClip (S : Scalar F D) (loss : Function F n) (s : State F n)
    (h : EvalAfterClip s.pg.projector s.mem.log) :
    EvalAfterClip s.pg.projector (trial S loss s).mem.log := by
  obtain ⟨raw, hlog, _⟩ := trial_log S loss s
  rw [hlog]
  exact evalAfterClip_eval _ _ _ _ (evalAfterClip_cons _ (Event.newPoint _ _) _ rfl h)

theorem outerIter_evalAfterClip (S : Scalar F D) (loss : Function F n) (fuel : ℕ)
    (s s' : State F n) (hs : EvalAfterClip s.pg.projector s.mem.log)
    (h : outerIter S loss fuel s = some s') : EvalAfterClip s.pg.projector s'.mem.log := by
  obtain ⟨t, rfl, ht⟩ := outerIter_inv S loss
    (fun u => u.pg = s.pg ∧ EvalAfterClip u.pg.projector u.mem.log)
    (fun u hu => by
      obtain ⟨a1, _, _, _, _, a6, _⟩ := accept_keeps S u
      rw [a1, a6]; exact hu)
    (fun u hu => ⟨hu.1, trial_evalAfterClip S loss _ hu.2⟩)
    fuel s s' ⟨rfl, trial_evalAfterClip S loss _ hs⟩ h
  have h2 := ht.1.2
  rw [ht.1.1] at h2
  exact evalAfterClip_cons _ (Event.clipGradient _ _) _ rfl h2

theorem evaluated_feasible (projector : Projection F n) (l : List (Event F n))
    (h : EvalAfterClip projector l) (feasible : Parameter F n → Prop)
    (hf : ∀ v, feasible (projector.ClipPoint v)) (b : Buf) (p : Parameter F n)
    (hp : Event.evaluate b p ∈ l) : feasible p := by
  obtain ⟨pre, rest, hl⟩ := List.append_of_mem hp
  obtain ⟨a, _, _, rfl⟩ := h pre b p rest hl
  exact hf a

/-- C6: every point passed to `loss.Evaluate` is the direct output of
`projector.ClipPoint`: in the record of calls each call of `Evaluate` comes
directly after a call of `ClipPoint` on the same object and receives the
contents that call produced.  This holds at the head of the loop after any
number of completed iterations and in the outcome of a run that returns.  So
when every output of `ClipPoint` is feasible, no infeasible point is evaluated. -/
theorem evaluate_only_clipped_points (S : Scalar F D) (cloneOf : Parameter F n → Parameter F n)
    (fuel : ℕ) (pg : ProjectedGradient F n) (loss : Function F n) (stop : StopCriteria F n)
    (vec : Parameter F n) :
    (∀ j s, loopPrefix S loss stop fuel j (setup S cloneOf pg loss vec) = some s →
      EvalAfterClip pg.projector s.mem.log) ∧
    (∀ r, Minimize S cloneOf fuel pg loss stop vec = some r →
      EvalAfterClip pg.projector r.log ∧
      ∀ feasible : Parameter F n → Prop, (∀ v, feasible (pg.projector.ClipPoint v)) →
        ∀ b p, Event.evaluate b p ∈ r.log → feasible p) := by
  have hstart : EvalAfterClip pg.projector (setup S cloneOf pg loss vec).mem.log := by
    rw [(setup_value S cloneOf pg loss vec).2.2.2]
    exact evalAfterClip_cons _ (Event.clipGradient _ _) _ rfl
      (evalAfterClip_eval _ _ _ _ (fun pre b p rest heq => by simp at heq))
  have hnote : ∀ s : State F n, (s.pg = pg ∧ EvalAfterClip pg.projector s.mem.log) →
      ((noteStop stop s).pg = pg ∧ EvalAfterClip pg.projector (noteStop stop s).mem.log) :=
    fun s hs => ⟨hs.1, evalAfterClip_cons _ (Event.done _ _ _ _) _ rfl hs.2⟩
  have hstep : ∀ fuel (s s' : State F n), (s.pg = pg ∧ EvalAfterClip pg.projector s.mem.log) →
      outerIter S loss fuel s = some s' →
      (s'.pg = pg ∧ EvalAfterClip pg.projector s'.mem.log) := by
    intro fuel s s' hs h
    refine ⟨(outerIter_pg S loss fuel s s' h).trans hs.1, ?_⟩
    have := outerIter_evalAfterClip S loss fuel s s' (by rw [hs.1]; exact hs.2) h
    rw [hs.1] at this
    exact this
  refine ⟨fun j s h => ?_, fun r h => ?_⟩
  · exact (loopPrefix_inv S loss stop _ hnote hstep fuel j _ s ⟨rfl, hstart⟩ h).2
  · obtain ⟨hloop, _, _, _, _, hlog⟩ := Minimize_some S cloneOf fuel pg loss stop vec r h
    have hE : EvalAfterClip pg.projector r.log := by
      rw [hlog]
      exact (mainLoop_inv S loss stop _ hnote hstep fuel _ r.final ⟨rfl, hstart⟩ hloop).2
    exact ⟨hE, fun feasible hf b p hp => evaluated_feasible _ _ hE feasible hf b p hp⟩

/-- The scenario of spec §8 started at `0`: the run returns and every point it
evaluated is non-negative. -/
theorem evaluate_only_clipped_points_witness :
    ∃ r, scenarioRun 3 0 = some r ∧ EvalAfterClip (nonneg 1) r.log ∧
      (r.log.filter Event.isEvaluate).length = 3 ∧
      ∀ b p, Event.evaluate b p ∈ r.log → ∀ i, 0 ≤ p i := by
  have h0 : (scenarioRun 3 0).map (fun r => (r.log.filter Event.isEvaluate).length)
      = some 3 := by decide!
  obtain ⟨r, hr, hn⟩ := Option.map_eq_some'.mp h0
  have w := (evaluate_only_clipped_points exactQ (zeroClone 0) 3 scenarioPG quadratic
    zeroGradient (fun _ => 0)).2 r hr
  exact ⟨r, hr, w.1, hn, w.2 (fun p => ∀ i, 0 ≤ p i) (fun v i => le_max_right _ _)⟩

/-! ## Monotone decrease in exact arithmetic -/

/-- The candidate `trial` builds: the clipped gradient step from the current point. -/
theorem trial_candidate (S : Scalar F D) (loss : Function F n) (s : State F n)
    (hne : s.stt ≠ s.nxt) :
    (trial S loss s).mem.get s.nxt
      = s.pg.projector.ClipPoint
          (fun j => S.sub (s.mem.get s.stt j) (S.mul s.alpha (s.ovalgrad.gradient j))) := by
  simp only [trial, evaluate, Mem.get_emit]
  exact newPoint_target S _ hne _ _ _

theorem shrink_candidate (S : Scalar F D) (loss : Function F n) (u : State F n)
    (hne : u.stt ≠ u.nxt) :
    (shrink S loss u).mem.get u.nxt
      = u.pg.projector.ClipPoint
          (fun j => S.sub (u.mem.get u.stt j)
            (S.mul (S.mul u.alpha u.pg.beta) (u.ovalgrad.gradient j))) :=
  trial_candidate S loss _ hne

theorem firstTrial_candidate (S : Scalar F D) (loss : Function F n) (s : State F n)
    (hne : s.stt ≠ s.nxt) :
    (firstTrial S loss s).mem.get s.nxt
      = s.pg.projector.ClipPoint
          (fun j => S.sub (s.mem.get s.stt j) (S.mul s.current_alpha (s.ovalgrad.gradient j))) :=
  trial_candidate S loss _ hne

theorem foldl_add_nonpos (f : Fin n → ℚ) (l : List (Fin n)) (acc : ℚ) (hacc : acc ≤ 0)
    (hf : ∀ i, f i ≤ 0) : l.foldl (fun a i => a + f i) acc ≤ 0 := by
  induction l generalizing acc with
  | nil => exact hacc
  | cons i l ih => exact ih _ (add_nonpos hacc (hf i))

theorem step_term_nonpos (x g a : ℚ) (hx : 0 ≤ x) (ha : 0 ≤ a) :
    g * (max (x - a * g) 0 - x) ≤ 0 := by
  rcases le_total 0 (x - a * g) with h | h
  · rw [max_eq_left h]
    have : g * (x - a * g - x) = -(a * (g * g)) := by ring
    rw [this]
    exact neg_nonpos.mpr (mul_nonneg ha (mul_self_nonneg g))
  · rw [max_eq_right h]
    have e : g * (0 - x) = -(g * x) := by ring
    rw [e]
    rcases le_total 0 g with hg | hg
    · exact neg_nonpos.mpr (mul_nonneg hg hx)
    · have h1 : a * g ≤ 0 := mul_nonpos_of_nonneg_of_nonpos ha hg
      have hx0 : x = 0 := by linarith
      rw [hx0, mul_zero, neg_zero]

/-- For the non-negativity projection the right-hand side of the test is never
positive at a clipped gradient step from a non-negative point. -/
theorem decreaseBound_nonpos (sigma a : ℚ) (x g : Parameter ℚ n) (hs : 0 ≤ sigma)
    (ha : 0 ≤ a) (hx : ∀ i, 0 ≤ x i) :
    decreaseBound exactQ sigma x ((nonneg n).ClipPoint (fun j => x j - a * g j)) g ≤ 0 := by
  have h := foldl_add_nonpos (fun i => g i * (max (x i - a * g i) 0 - x i)) (List.finRange n) 0
    le_rfl (fun i => step_term_nonpos (x i) (g i) a (hx i) ha)
  exact mul_nonpos_of_nonneg_of_nonpos hs h

theorem outerIter_monotone (beta sigma alpha : ℚ) (hs : 0 < sigma) (hb : 0 < beta)
    (loss : Function ℚ n) (fuel : ℕ) (s s' : State ℚ n)
    (hinv : LoopInv (NewProjectedGradient (nonneg n) beta sigma alpha) s)
    (h : outerIter exactQ loss fuel s = some s') :
    s'.ovalgrad.value ≤ s.ovalgrad.value ∧
    LoopInv (NewProjectedGradient (nonneg n) beta sigma alpha) s' := by
  obtain ⟨hpg, hne, hx, hca⟩ := hinv
  have hproj : s.pg.projector = nonneg n := by rw [hpg]; rfl
  have hbeta : s.pg.beta = beta := by rw [hpg]; rfl
  have hsigma : s.pg.sigma = sigma := by rw [hpg]; rfl
  obtain ⟨t, rfl, ⟨q1, q2, q3, q4, q5, q6, a, ha, q7⟩, hg, _⟩ := outerIter_inv exactQ loss
    (fun u => u.pg = s.pg ∧ u.stt = s.stt ∧ u.nxt = s.nxt ∧ u.ovalgrad = s.ovalgrad ∧
      u.mem.get s.stt = s.mem.get s.stt ∧ 0 < u.alpha ∧
      ∃ a, 0 ≤ a ∧ u.mem.get s.nxt
        = (nonneg n).ClipPoint (fun j => s.mem.get s.stt j - a * s.ovalgrad.gradient j))
    (fun u hu => by
      obtain ⟨u1, u2, u3, u4, u5, u6, u7⟩ := hu
      obtain ⟨a1, a2, a3, a4, _, a6, _⟩ := accept_keeps exactQ u
      refine ⟨a1.trans u1, a2.trans u2, a3.trans u3, a4.trans u4, by rw [a6]; exact u5, ?_,
        by rw [a6]; exact u7⟩
      unfold accept
      simp only []
      split
      · show 0 < u.alpha / u.pg.beta
        rw [u1, hbeta]; exact div_pos u6 hb
      · exact u6)
    (fun u hu => by
      obtain ⟨u1, u2, u3, u4, u5, u6, _⟩ := hu
      have hk := shrink_keeps exactQ loss u
      obtain ⟨k1, k2, k3, k4, _, _, _, k8⟩ := hk
      have hne' : u.stt ≠ u.nxt := by rw [u2, u3]; exact hne
      have hal : 0 < u.alpha * u.pg.beta := by rw [u1, hbeta]; exact mul_pos u6 hb
      refine ⟨k1.trans u1, k2.trans u2, k3.trans u3, k4.trans u4, ?_, hal, u.alpha * u.pg.beta,
        hal.le, ?_⟩
      · have := k8 hne'
        rw [u2] at this
        rw [this]; exact u5
      · have hc := shrink_candidate exactQ loss u hne'
        rw [u3, u2, u5, u4, u1, hproj] at hc
        rw [u1]
        exact hc)
    fuel s s'
    (by
      obtain ⟨f1, f2, f3, f4, f5⟩ := firstTrial_keeps exactQ loss s
      refine ⟨f1, f2, f3, f4, f5 hne, hca, s.current_alpha, hca.le, ?_⟩
      have hc := firstTrial_candidate exactQ loss s hne
      rw [hproj] at hc
      exact hc)
    h
  have hbound := decreaseBound_nonpos sigma a (s.mem.get s.stt) s.ovalgrad.gradient hs.le ha hx
  rw [← q7] at hbound
  rw [isGoodStep_eq, q1, hsigma, q2, q3, q4, q5] at hg
  have hle : t.nvalgrad.value - s.ovalgrad.value
      ≤ decreaseBound exactQ sigma (s.mem.get s.stt) (t.mem.get s.nxt) s.ovalgrad.gradient :=
    of_decide_eq_true hg
  refine ⟨by show t.nvalgrad.value ≤ s.ovalgrad.value; linarith, q1.trans hpg, ?_, ?_, q6⟩
  · show t.nxt ≠ t.stt
    rw [q2, q3]; exact fun e => hne e.symm
  · intro i
    show 0 ≤ (t.mem.emit _).get t.nxt i
    rw [Mem.get_emit, q3, q7]
    exact le_max_right _ _

theorem setup_loopInv (cloneOf : Parameter ℚ n → Parameter ℚ n) (beta sigma alpha : ℚ)
    (ha : 0 < alpha) (loss : Function ℚ n) (vec : Parameter ℚ n) :
    LoopInv (NewProjectedGradient (nonneg n) beta sigma alpha)
      (setup exactQ cloneOf (NewProjectedGradient (nonneg n) beta sigma alpha) loss vec) :=
  ⟨rfl, show Buf.vec ≠ Buf.clone by decide, fun _ => le_max_right _ _, ha⟩

/-- C2: in exact arithmetic, with `sigma > 0`, `alpha0 > 0`, `beta` in `(0,1)`
and the non-negativity projection: (a) the right-hand side of the decrease
test is at most 0 for every trial candidate built from a non-negative current
point with a non-negative step size; (b) every completed outer iteration
commits a point whose value is at most the value of the point it replaces,
and re-establishes what (a) needs; (c) the value `Minimize` returns is at
most the value of the objective at the clipped initial point. -/
theorem exact_monotone_decrease (cloneOf : Parameter ℚ n → Parameter ℚ n)
    (beta sigma alpha : ℚ) (hs : 0 < sigma) (ha : 0 < alpha) (hb0 : 0 < beta) (_hb1 : beta < 1)
    (loss : Function ℚ n) (stop : StopCriteria ℚ n) :
    (∀ u : State ℚ n, u.pg = NewProjectedGradient (nonneg n) beta sigma alpha →
      u.stt ≠ u.nxt → (∀ i, 0 ≤ u.mem.get u.stt i) → 0 ≤ u.alpha →
      decreaseBound exactQ sigma ((trial exactQ loss u).mem.get u.stt)
        ((trial exactQ loss u).mem.get u.nxt) u.ovalgrad.gradient ≤ 0) ∧
    (∀ fuel (s s' : State ℚ n),
      LoopInv (NewProjectedGradient (nonneg n) beta sigma alpha) s →
      outerIter exactQ loss fuel s = some s' →
      s'.ovalgrad.value ≤ s.ovalgrad.value ∧
      LoopInv (NewProjectedGradient (nonneg n) beta sigma alpha) s') ∧
    (∀ fuel vec r,
      Minimize exactQ cloneOf fuel (NewProjectedGradient (nonneg n) beta sigma alpha) loss stop vec
        = some r →
      r.value ≤ (loss.Evaluate ((nonneg n).ClipPoint vec) (fun _ => 0)).1) := by
  refine ⟨fun u hpg hne hx hal => ?_, fun fuel s s' hinv h =>
    outerIter_monotone beta sigma alpha hs hb0 loss fuel s s' hinv h, fun fuel vec r h => ?_⟩
  · have hc := trial_candidate exactQ loss u hne
    have hk := (trial_keeps exactQ loss u).2.2.2.2.2.2.2 hne
    rw [hc, hk, hpg]
    exact decreaseBound_nonpos sigma u.alpha _ _ hs.le hal hx
  · obtain ⟨hloop, hv, _⟩ := Minimize_some exactQ cloneOf fuel _ loss stop vec r h
    obtain ⟨_, e2, _, _⟩ := setup_value exactQ cloneOf
      (NewProjectedGradient (nonneg n) beta sigma alpha) loss vec
    have hinv := mainLoop_inv exactQ loss stop
      (fun u => LoopInv (NewProjectedGradient (nonneg n) beta sigma alpha) u ∧
        u.ovalgrad.value ≤ (loss.Evaluate ((nonneg n).ClipPoint vec) (fun _ => 0)).1)
      (fun u hu => by
        obtain ⟨⟨i1, i2, i3, i4⟩, hval⟩ := hu
        exact ⟨⟨i1, i2, fun i => by simpa [noteStop] using i3 i, i4⟩, hval⟩)
      (fun fuel u u' hu hstep => by
        obtain ⟨hle, hinv'⟩ := outerIter_monotone beta sigma alpha hs hb0 loss fuel u u' hu.1 hstep
        exact ⟨hinv', hle.trans hu.2⟩)
      fuel _ r.final ⟨setup_loopInv cloneOf beta sigma alpha ha loss vec, e2.le⟩ hloop
    rw [hv]
    exact hinv.2

/-- The scenario of spec §8 started at `0`: the run returns a value that is at
most the value `9` at the initial point. -/
theorem exact_monotone_decrease_witness :
    ∃ r, Minimize exactQ (zeroClone 0) 3 (NewProjectedGradient (nonneg 1) (1 / 2) (1 / 10) 1)
        quadratic zeroGradient (fun _ => 0) = some r ∧
      r.value ≤ (quadratic.Evaluate ((nonneg 1).ClipPoint (fun _ => 0)) (fun _ => 0)).1 ∧
      (quadratic.Evaluate ((nonneg 1).ClipPoint (fun _ => 0)) (fun _ => 0)).1 = 9 := by
  have hsome : (Minimize exactQ (zeroClone 0) 3
      (NewProjectedGradient (nonneg 1) (1 / 2) (1 / 10) 1) quadratic zeroGradient
      (fun _ => 0)).isSome = true := by decide!
  obtain ⟨r, hr⟩ := Option.isSome_iff_exists.mp hsome
  exact ⟨r, hr,
    (exact_monotone_decrease (zeroClone 0) (1 / 2) (1 / 10) 1 (by norm_num) (by norm_num)
      (by norm_num) (by norm_num) quadratic zeroGradient).2.2 3 (fun _ => 0) r hr,
    by decide!⟩

/-! ## More fuel does not change a result -/

theorem backtrack_mono (S : Scalar F D) (loss : Function F n) (fuel : ℕ) (s t : State F n)
    (h : backtrack S loss fuel s = some t) : backtrack S loss (fuel + 1) s = some t := by
  induction fuel generalizing s with
  | zero => simp [backtrack] at h
  | succ fuel ih =>
    rw [backtrack] at h ⊢
    split
    · rename_i hg
      rw [if_pos hg] at h
      exact h
    · rename_i hg
      rw [if_neg hg] at h
      exact ih _ h

theorem outerIter_mono (S : Scalar F D) (loss : Function F n) (fuel : ℕ) (s t : State F n)
    (h : outerIter S loss fuel s = some t) : outerIter S loss (fuel + 1) s = some t := by
  unfold outerIter at h ⊢
  simp only [] at h ⊢
  split
  · rename_i hg
    rw [if_pos hg] at h
    exact h
  · rename_i hg
    rw [if_neg hg] at h
    obtain ⟨u, hu, ht⟩ := Option.map_eq_some'.mp h
    rw [backtrack_mono S loss fuel _ u hu]
    exact congrArg some ht

theorem mainLoop_mono (S : Scalar F D) (loss : Function F n) (stop : StopCriteria F n)
    (fuel : ℕ) (s t : State F n) (h : mainLoop S loss stop fuel s = some t) :
    mainLoop S loss stop (fuel + 1) s = some t := by
  induction fuel generalizing s with
  | zero => simp [mainLoop] at h
  | succ fuel ih =>
    rw [mainLoop] at h ⊢
    split
    · rename_i hd
      rw [if_pos hd] at h
      exact h
    · rename_i hd
      rw [if_neg hd] at h
      obtain ⟨u, hu, ht⟩ := Option.bind_eq_some.mp h
      rw [outerIter_mono S loss fuel _ u hu]
      exact ih u ht

theorem Minimize_mono (S : Scalar F D) (cloneOf : Parameter F n → Parameter F n)
    (pg : ProjectedGradient F n) (loss : Function F n) (stop : StopCriteria F n)
    (vec : Parameter F n) (r : Outcome F n) (fuel fuel' : ℕ) (hle : fuel ≤ fuel')
    (h : Minimize S cloneOf fuel pg loss stop vec = some r) :
    Minimize S cloneOf fuel' pg loss stop vec = some r := by
  induction hle with
  | refl => exact h
  | step _ ih =>
    unfold Minimize at ih ⊢
    obtain ⟨u, hu, hr⟩ := Option.map_eq_some'.mp ih
    rw [mainLoop_mono S loss stop _ _ u hu]
    exact congrArg some hr

/-! ## Writes to the caller's vector -/

/-- C4 fails as stated: the caller's vector is written before the copy-back
loop.  Started at `-1`, it holds `0` at the entry of the outer loop (the
`ClipPoint` call of line 31 wrote it).  In the scenario started at `10` it still
holds `10` after the first iteration and holds `3` after the second one, whose
`newPoint` calls built their candidates in it; the loop has not exited then. -/
theorem caller_vector_written_before_copy_back :
    (setup exactQ (zeroClone 0) scenarioPG quadratic (fun _ => -1)).mem.vec 0 = 0 ∧
    (loopPrefix exactQ quadratic zeroGradient 4 1 (scenarioStart 10)).map
      (fun s => (s.stt, s.mem.vec 0)) = some (Buf.clone, 10) ∧
    (loopPrefix exactQ quadratic zeroGradient 4 2 (scenarioStart 10)).map
      (fun s => (s.stt, s.mem.vec 0)) = some (Buf.vec, 3) := by
  decide!

/-- C4 as amended: before the copy-back loop the caller's vector is written by
the `ClipPoint` call of line 31, after which it holds the clipped initial
point, and by every outer iteration entered with `stt` naming the second
object, which builds its candidates in the caller's vector and leaves the
second object alone; an outer iteration entered with `stt` naming the caller's
vector does not change the caller's vector.  The two objects exchange their
roles in every iteration. -/
theorem caller_vector_writes (S : Scalar F D) (cloneOf : Parameter F n → Parameter F n)
    (pg : ProjectedGradient F n) (loss : Function F n) (vec : Parameter F n) :
    ((setup S cloneOf pg loss vec).mem.vec = pg.projector.ClipPoint vec ∧
      (setup S cloneOf pg loss vec).stt = Buf.vec ∧
      (setup S cloneOf pg loss vec).nxt = Buf.clone) ∧
    (∀ fuel (s s' : State F n), s.stt = Buf.vec → s.nxt = Buf.clone →
      outerIter S loss fuel s = some s' →
      s'.mem.vec = s.mem.vec ∧ s'.stt = Buf.clone ∧ s'.nxt = Buf.vec) ∧
    (∀ fuel (s s' : State F n), s.stt = Buf.clone → s.nxt = Buf.vec →
      outerIter S loss fuel s = some s' →
      s'.mem.clone = s.mem.clone ∧ s'.stt = Buf.vec ∧ s'.nxt = Buf.clone ∧
      ∃ a, s'.mem.vec = s.pg.projector.ClipPoint a) := by
  refine ⟨⟨rfl, rfl, rfl⟩, fun fuel s s' h1 h2 h => ?_, fun fuel s s' h1 h2 h => ?_⟩
  · obtain ⟨t, rfl, _, _, t2, t3, _, t5⟩ := outerIter_commit S loss fuel s s' h
    have hne : s.stt ≠ s.nxt := by rw [h1, h2]; decide
    have e := t5 hne
    rw [h1] at e
    exact ⟨e, t3.trans h2, t2.trans h1⟩
  · have hne : s.stt ≠ s.nxt := by rw [h1, h2]; decide
    obtain ⟨t, rfl, ⟨q1, a, q3⟩, _, _, t2, t3, _, t5⟩ := outerIter_inv S loss
      (fun u => u.pg = s.pg ∧ ∃ a, u.mem.get u.nxt = u.pg.projector.ClipPoint a)
      (fun u hu => by
        obtain ⟨a1, _, a3, _, _, a6, _⟩ := accept_keeps S u
        rw [a1, a3, a6]; exact hu)
      (fun u hu => ⟨hu.1, by
        obtain ⟨raw, _, hraw⟩ := trial_log S loss
          { u with alpha := S.mul u.alpha u.pg.beta,
                   alpha_moves := u.alpha_moves.set u.idx (u.alpha_moves.getD u.idx 0 - 1) }
        exact ⟨raw, hraw⟩⟩)
      fuel s s' ⟨rfl, by
        obtain ⟨raw, _, hraw⟩ := trial_log S loss
          { s with idx := s.k % s.alpha_moves.length, alpha := s.current_alpha,
                   alpha_moves := s.alpha_moves.set (s.k % s.alpha_moves.length) 0 }
        exact ⟨raw, hraw⟩⟩ h
    have e := t5 hne
    rw [h1] at e
    refine ⟨e, t3.trans h2, t2.trans h1, a, ?_⟩
    rw [← q1, ← q3, t3, h2]
    rfl

/-- The first iteration of the scenario started at `0` is entered with `stt`
naming the caller's vector and leaves the caller's vector as it was. -/
theorem caller_vector_writes_witness :
    ∃ s', outerIter exactQ quadratic 2 (scenarioStart 0) = some s' ∧
      s'.mem.vec = (scenarioStart 0).mem.vec ∧ s'.stt = Buf.clone ∧ s'.nxt = Buf.vec := by
  have hsome : (outerIter exactQ quadratic 2 (scenarioStart 0)).isSome = true := by decide!
  obtain ⟨s', hs'⟩ := Option.isSome_iff_exists.mp hsome
  exact ⟨s', hs', (caller_vector_writes exactQ (zeroClone 0) scenarioPG quadratic
    (fun _ => 0)).2.1 2 (scenarioStart 0) s' rfl rfl hs'⟩

/-! ## The growth rule -/

/-- C7 fails as stated.  Run: objective `(x-3)^2`, non-negativity projection,
start `10`, `alpha0 = 0.6`, `beta = 0.5`, `sigma = 0.1`, stop when the value is
at most `1/100000`.  Iteration 1 grows the step and clears the history,
iteration 2 backtracks once, iterations 3 and 4 both pass on the first try; yet
iteration 4 commits the trial step `3/5` unchanged (not `3/5 / (1/2)`) and
leaves the history `[0, 0, -1, 1, 1]`, because the slot of iteration 2 holds
`-1` and the sum of the slots is 1. -/
theorem no_growth_after_backtrack :
    (loopPrefix exactQ quadratic smallValue 6 3 growthStart).map
      (fun s => (s.k, s.alpha_moves, firstTryPasses exactQ quadratic (noteStop smallValue s)))
        = some (3, [0, 0, -1, 0, 0], true) ∧
    (loopPrefix exactQ quadratic smallValue 6 4 growthStart).map
      (fun s => (s.k, s.alpha_moves, s.current_alpha,
        firstTryPasses exactQ quadratic (noteStop smallValue s)))
        = some (4, [0, 0, -1, 1, 0], 3 / 5, true) ∧
    (loopPrefix exactQ quadratic smallValue 6 5 growthStart).map
      (fun s => (s.k, s.alpha_moves, s.current_alpha)) = some (5, [0, 0, -1, 1, 1], 3 / 5) ∧
    (Minimize exactQ (zeroClone 0) 6 growthPG quadratic smallValue (fun _ => 10)).map
      (fun r => (r.final.k, r.final.alpha_moves, r.final.current_alpha))
        = some (5, [0, 0, -1, 1, 1], 3 / 5) := by
  decide!

theorem length_five (l : List ℤ) (h : l.length = 5) : ∃ a b c d e, l = [a, b, c, d, e] := by
  rcases l with _ | ⟨a, _ | ⟨b, _ | ⟨c, _ | ⟨d, _ | ⟨e, _ | ⟨f, l⟩⟩⟩⟩⟩⟩ <;>
    simp at h
  exact ⟨a, b, c, d, e, rfl⟩

theorem moveSum_five (a b c d e : ℤ) : moveSum [a, b, c, d, e] = a + b + c + d + e := by
  simp [moveSum, List.range_succ]

theorem clearMoves_five (a b c d e : ℤ) : clearMoves [a, b, c, d, e] = [0, 0, 0, 0, 0] := by
  simp [clearMoves, List.range_succ]

/-- With five slots, once slot `i` is set to `+1`: the slots are cleared to
zero by `clearMoves`, and the sum exceeds 1 as soon as another slot holds `+1`
and no other slot is negative. -/
theorem growth_sum (l : List ℤ) (i : ℕ) (hl : l.length = 5) (hi : i < 5) :
    clearMoves ((l.set i 0).set i 1) = [0, 0, 0, 0, 0] ∧
    ((∃ j, j < 5 ∧ j ≠ i ∧ l.getD j 0 = 1) → (∀ j, j < 5 → j ≠ i → 0 ≤ l.getD j 0) →
      1 < moveSum ((l.set i 0).set i 1)) := by
  obtain ⟨a, b, c, d, e, rfl⟩ := length_five l hl
  have h0 := fun (h : ∀ j, j < 5 → j ≠ i → 0 ≤ [a, b, c, d, e].getD j 0) => h 0 (by norm_num)
  have h1 := fun (h : ∀ j, j < 5 → j ≠ i → 0 ≤ [a, b, c, d, e].getD j 0) => h 1 (by norm_num)
  have h2 := fun (h : ∀ j, j < 5 → j ≠ i → 0 ≤ [a, b, c, d, e].getD j 0) => h 2 (by norm_num)
  have h3 := fun (h : ∀ j, j < 5 → j ≠ i → 0 ≤ [a, b, c, d, e].getD j 0) => h 3 (by norm_num)
  have h4 := fun (h : ∀ j, j < 5 → j ≠ i → 0 ≤ [a, b, c, d, e].getD j 0) => h 4 (by norm_num)
  interval_cases i
  all_goals
    refine ⟨by simp [clearMoves_five], fun ⟨j, hj, hji, hj1⟩ hall => ?_⟩
    have g0 := h0 hall
    have g1 := h1 hall
    have g2 := h2 hall
    have g3 := h3 hall
    have g4 := h4 hall
    simp only [List.set_cons_zero, List.set_cons_succ, moveSum_five]
    simp at g0 g1 g2 g3 g4
    interval_cases j <;> simp at hji hj1 <;> omega

theorem accept_grow (S : Scalar F D) (u : State F n)
    (h : 1 < moveSum (u.alpha_moves.set u.idx 1)) :
    (accept S u).alpha = S.div u.alpha u.pg.beta ∧
    (accept S u).alpha_moves = clearMoves (u.alpha_moves.set u.idx 1) := by
  unfold accept
  simp only []
  rw [if_pos h]
  exact ⟨rfl, rfl⟩

theorem accept_same (S : Scalar F D) (u : State F n)
    (h : ¬ 1 < moveSum (u.alpha_moves.set u.idx 1)) :
    (accept S u).alpha = u.alpha ∧ (accept S u).alpha_moves = u.alpha_moves.set u.idx 1 := by
  unfold accept
  simp only []
  rw [if_neg h]
  exact ⟨rfl, rfl⟩

theorem outerIter_first_try (S : Scalar F D) (loss : Function F n) (fuel : ℕ) (s : State F n)
    (hpass : firstTryPasses S loss s = true) :
    outerIter S loss fuel s = some (commit (accept S (firstTrial S loss s))) := by
  unfold outerIter
  simp only []
  unfold firstTryPasses at hpass
  rw [if_pos hpass]

/-- C7 as amended: an iteration that passes the test on the first try grows
the step (committed step = trial step `/ beta`) and clears the five slots
exactly when the sum of the slots, its own slot set to `+1`, exceeds 1;
otherwise it commits the trial step unchanged and only sets its slot to `+1`.
Growth does fire when another slot holds `+1` and no other slot is negative,
that is when no iteration recorded in the window backtracked. -/
theorem growth_rule (S : Scalar F D) (loss : Function F n) (fuel : ℕ) (s : State F n)
    (hlen : s.alpha_moves.length = 5) (hpass : firstTryPasses S loss s = true) :
    ∃ s', outerIter S loss fuel s = some s' ∧
      (1 < moveSum ((s.alpha_moves.set (s.k % 5) 0).set (s.k % 5) 1) →
        s'.current_alpha = S.div s.current_alpha s.pg.beta ∧
        s'.alpha_moves = [0, 0, 0, 0, 0]) ∧
      (¬ 1 < moveSum ((s.alpha_moves.set (s.k % 5) 0).set (s.k % 5) 1) →
        s'.current_alpha = s.current_alpha ∧
        s'.alpha_moves = (s.alpha_moves.set (s.k % 5) 0).set (s.k % 5) 1) ∧
      ((∃ j, j < 5 ∧ j ≠ s.k % 5 ∧ s.alpha_moves.getD j 0 = 1) →
        (∀ j, j < 5 → j ≠ s.k % 5 → 0 ≤ s.alpha_moves.getD j 0) →
        s'.current_alpha = S.div s.current_alpha s.pg.beta ∧
        s'.alpha_moves = [0, 0, 0, 0, 0]) := by
  have hk : s.k % 5 < 5 := Nat.mod_lt _ (by norm_num)
  obtain ⟨hclear, hsum⟩ := growth_sum s.alpha_moves (s.k % 5) hlen hk
  have hm : (firstTrial S loss s).alpha_moves = s.alpha_moves.set (s.k % 5) 0 := by
    show s.alpha_moves.set (s.k % s.alpha_moves.length) 0 = _
    rw [hlen]
  have hi : (firstTrial S loss s).idx = s.k % 5 := by
    show s.k % s.alpha_moves.length = _
    rw [hlen]
  have hgrow : 1 < moveSum ((s.alpha_moves.set (s.k % 5) 0).set (s.k % 5) 1) →
      (commit (accept S (firstTrial S loss s))).current_alpha = S.div s.current_alpha s.pg.beta ∧
      (commit (accept S (firstTrial S loss s))).alpha_moves = [0, 0, 0, 0, 0] := by
    intro h
    obtain ⟨g1, g2⟩ := accept_grow S (firstTrial S loss s) (by rw [hm, hi]; exact h)
    refine ⟨g1, ?_⟩
    show (accept S (firstTrial S loss s)).alpha_moves = _
    rw [g2, hm, hi]
    exact hclear
  refine ⟨_, outerIter_first_try S loss fuel s hpass, hgrow, fun h => ?_,
    fun hex hall => hgrow (hsum hex hall)⟩
  obtain ⟨g1, g2⟩ := accept_same S (firstTrial S loss s) (by rw [hm, hi]; exact h)
  refine ⟨g1, ?_⟩
  show (accept S (firstTrial S loss s)).alpha_moves = _
  rw [g2, hm, hi]

/-- The growth rule on the run of the counterexample: iteration 1 finds `+1`
in slot 0 and no negative slot, and grows the step from `3/5` to `3/5 / (1/2)`. -/
theorem growth_rule_witness :
    ∃ s s', loopPrefix exactQ quadratic smallValue 6 1 growthStart = some s ∧
      outerIter exactQ quadratic 5 s = some s' ∧
      s'.current_alpha = exactQ.div s.current_alpha s.pg.beta ∧
      s'.alpha_moves = [0, 0, 0, 0, 0] ∧ s'.current_alpha = 6 / 5 := by
  have h1 : (loopPrefix exactQ quadratic smallValue 6 1 growthStart).map
      (fun s => (s.alpha_moves, s.k, firstTryPasses exactQ quadratic s, s.current_alpha,
        s.pg.beta)) = some ([1, 0, 0, 0, 0], 1, true, 3 / 5, 1 / 2) := by decide!
  obtain ⟨s, hs, hobs⟩ := Option.map_eq_some'.mp h1
  simp only [Prod.mk.injEq] at hobs
  obtain ⟨o1, o2, o3, o4, o5⟩ := hobs
  obtain ⟨s', hs', _, _, w3⟩ := growth_rule exactQ quadratic 5 s (by rw [o1]; rfl) o3
  have hw := w3 ⟨0, by norm_num, by rw [o2]; norm_num, by rw [o1]; rfl⟩
    (fun j hj _ => by
      rw [o1]
      interval_cases j <;> simp)
  refine ⟨s, s', hs, hs', hw.1, hw.2, ?_⟩
  rw [hw.1, o4, o5]
  show (3 / 5 : ℚ) / (1 / 2) = 6 / 5
  norm_num

/-! ## The scenarios of spec §8 -/

/-- C8: `f(x) = (x-3)^2` over `x ≥ 0`, start `0`, `alpha0 = 1`, `beta = 0.5`,
`sigma = 0.1`, stop when the clipped gradient is zero, in exact arithmetic.
`Minimize` returns for every fuel from 3 on, always with the same outcome: one
iteration, final point `3`, returned value `0`.  The points evaluated are `0`,
`6`, `3` (all non-negative), the trial step sizes `1` and `1/2` (the first
candidate `6` is rejected, the retry gives `3`), and the accepted values are
`9`, `0` (non-increasing). -/
theorem scenario_from_zero :
    (∀ fuel, 3 ≤ fuel → scenarioRun fuel 0 = scenarioRun 3 0) ∧
    ∃ r, scenarioRun 3 0 = some r ∧
      r.value = 0 ∧ r.vec 0 = 3 ∧ r.final.k = 1 ∧ r.final.alpha_moves = [-1, 0, 0, 0, 0] ∧
      evaluatedAt 0 r.log = [0, 6, 3] ∧ (∀ x ∈ evaluatedAt 0 r.log, 0 ≤ x) ∧
      trialSteps r.log = [1, 1 / 2] ∧
      stopValues r.log = [9, 0] ∧ (stopValues r.log).Pairwise (fun a b => b ≤ a) := by
  have h : (scenarioRun 3 0).map (fun r => (r.value, r.vec 0, r.final.k, r.final.alpha_moves))
      = some (0, 3, 1, [-1, 0, 0, 0, 0]) := by decide!
  have h' : (scenarioRun 3 0).map (fun r => (evaluatedAt 0 r.log, trialSteps r.log,
      stopValues r.log)) = some ([0, 6, 3], [1, 1 / 2], [9, 0]) := by decide!
  obtain ⟨r, hr, hobs⟩ := Option.map_eq_some'.mp h
  rw [hr, Option.map_some'] at h'
  have hobs' := Option.some.inj h'
  simp only [Prod.mk.injEq] at hobs hobs'
  obtain ⟨o1, o2, o3, o4⟩ := hobs
  obtain ⟨o5, o6, o7⟩ := hobs'
  refine ⟨fun fuel hf => ?_, r, hr, o1, o2, o3, o4, o5, ?_, o6, o7, ?_⟩
  · rw [hr]
    exact Minimize_mono exactQ (zeroClone 0) scenarioPG quadratic zeroGradient (fun _ => 0) r 3
      fuel hf hr
  · rw [o5]; decide!
  · rw [o7]; decide!

/-- The scenario started at `0` run with fuel 7. -/
theorem scenario_from_zero_witness : scenarioRun 7 0 = scenarioRun 3 0 :=
  scenario_from_zero.1 7 (by norm_num)

/-- C9 fails as stated: in the scenario started at `10` the first trial point
is `10 - 1 * 14 = -4`, and `ClipPoint` changes it to `0`; the boundary is hit. -/
theorem scenario_from_ten_clips :
    (scenarioRun 4 10).map (fun r => trialClips (nonneg 1) 0 r.log)
      = some [(-4, 0), (6, 6), (3, 3)] ∧
    (scenarioRun 4 10).map (fun r => (evaluatedAt 0 r.log).take 2) = some [10, 0] := by
  decide!

/-- C9 as amended: `f(x) = (x-3)^2` over `x ≥ 0`, start `10`, `alpha0 = 1`,
`beta = 0.5`, `sigma = 0.1`, stop when the clipped gradient is zero, in exact
arithmetic.  `Minimize` returns for every fuel from 4 on, always with the same
outcome: two iterations, final point `3`, returned value `0`.  The first trial
point `-4` is clipped to the boundary `0` and accepted on the first try; from
there the candidate `6` is rejected and the retry with step `1/2` gives `3`;
`ClipPoint` leaves those two trial points unchanged.  The accepted values are
`49`, `9`, `0`. -/
theorem scenario_from_ten :
    (∀ fuel, 4 ≤ fuel → scenarioRun fuel 10 = scenarioRun 4 10) ∧
    ∃ r, scenarioRun 4 10 = some r ∧
      r.value = 0 ∧ r.vec 0 = 3 ∧ r.final.k = 2 ∧ r.final.alpha_moves = [1, -1, 0, 0, 0] ∧
      evaluatedAt 0 r.log = [10, 0, 6, 3] ∧
      trialClips (nonneg 1) 0 r.log = [(-4, 0), (6, 6), (3, 3)] ∧
      trialSteps r.log = [1, 1, 1 / 2] ∧
      stopValues r.log = [49, 9, 0] := by
  have h : (scenarioRun 4 10).map (fun r => (r.value, r.vec 0, r.final.k, r.final.alpha_moves))
      = some (0, 3, 2, [1, -1, 0, 0, 0]) := by decide!
  have h' : (scenarioRun 4 10).map (fun r => (evaluatedAt 0 r.log,
      trialClips (nonneg 1) 0 r.log, trialSteps r.log, stopValues r.log))
        = some ([10, 0, 6, 3], [(-4, 0), (6, 6), (3, 3)], [1, 1, 1 / 2], [49, 9, 0]) := by
    decide!
  obtain ⟨r, hr, hobs⟩ := Option.map_eq_some'.mp h
  rw [hr, Option.map_some'] at h'
  have hobs' := Option.some.inj h'
  simp only [Prod.mk.injEq] at hobs hobs'
  obtain ⟨o1, o2, o3, o4⟩ := hobs
  obtain ⟨o5, o6, o7, o8⟩ := hobs'
  refine ⟨fun fuel hf => ?_, r, hr, o1, o2, o3, o4, o5, o6, o7, o8⟩
  rw [hr]
  exact Minimize_mono exactQ (zeroClone 0) scenarioPG quadratic zeroGradient (fun _ => 10) r 4
    fuel hf hr

/-- The scenario started at `10` run with fuel 9. -/
theorem scenario_from_ten_witness : scenarioRun 9 10 = scenarioRun 4 10 :=
  scenario_from_ten.1 9 (by norm_num)

/-! ## No error is reported -/

/-- C11: on every run that returns, the error `Minimize` returns is `nil`. -/
theorem Minimize_error_nil (S : Scalar F D) (cloneOf : Parameter F n → Parameter F n)
    (fuel : ℕ) (pg : ProjectedGradient F n) (loss : Function F n) (stop : StopCriteria F n)
    (vec : Parameter F n) (r : Outcome F n)
    (h : Minimize S cloneOf fuel pg loss stop vec = some r) : r.err = none :=
  (Minimize_some S cloneOf fuel pg loss stop vec r h).2.2.1

/-- The scenario of spec §8 started at `10` returns, with no error. -/
theorem Minimize_error_nil_witness : ∃ r, scenarioRun 4 10 = some r ∧ r.err = none := by
  have hsome : (scenarioRun 4 10).isSome = true := by decide!
  obtain ⟨r, hr⟩ := Option.isSome_iff_exists.mp hsome
  exact ⟨r, hr, Minimize_error_nil exactQ (zeroClone 0) 4 scenarioPG quadratic zeroGradient
    (fun _ => 10) r hr⟩

/-! ## The history slots -/

theorem getD_set_self (l : List ℤ) (i : ℕ) (a : ℤ) (h : i < l.length) :
    (l.set i a).getD i 0 = a := by
  rw [List.getD_eq_getElem?_getD, List.getElem?_set_self h]
  rfl

theorem getD_set_ne (l : List ℤ) (i j : ℕ) (a : ℤ) (h : i ≠ j) :
    (l.set i a).getD j 0 = l.getD j 0 := by
  rw [List.getD_eq_getElem?_getD, List.getD_eq_getElem?_getD, List.getElem?_set_ne h]

theorem getD_set_le (l : List ℤ) (i j : ℕ) (a : ℤ) (ha : a ≤ 1) (h : l.getD j 0 ≤ 1) :
    (l.set i a).getD j 0 ≤ 1 := by
  by_cases hij : i = j
  · subst hij
    by_cases hi : i < l.length
    · rw [getD_set_self l i a hi]; exact ha
    · rw [List.getD_eq_default _ _ (by rw [List.length_set]; omega)]
      norm_num
  · rw [getD_set_ne l i j a hij]; exact h

theorem slotsOK_set (l : List ℤ) (i : ℕ) (a : ℤ) (ha : a ≤ 1) (h : SlotsOK l) :
    SlotsOK (l.set i a) :=
  ⟨by rw [List.length_set]; exact h.1, fun j => getD_set_le l i j a ha (h.2 j)⟩

theorem slotsOK_zero : SlotsOK [0, 0, 0, 0, 0] := by
  refine ⟨rfl, fun j => ?_⟩
  rcases j with _ | _ | _ | _ | _ | j <;> simp

theorem slotsOK_clear (l : List ℤ) (h : SlotsOK l) : SlotsOK (clearMoves l) := by
  obtain ⟨a, b, c, d, e, rfl⟩ := length_five l h.1
  rw [clearMoves_five]
  exact slotsOK_zero

/-- Five slots, none above `+1`, with a sum above 1: two of them hold `+1`. -/
theorem two_successes (l : List ℤ) (h : SlotsOK l) (hsum : 1 < moveSum l) :
    ∃ i j, i < j ∧ j < 5 ∧ l.getD i 0 = 1 ∧ l.getD j 0 = 1 := by
  obtain ⟨a, b, c, d, e, rfl⟩ := length_five l h.1
  rw [moveSum_five] at hsum
  have ha : a ≤ 1 := by simpa using h.2 0
  have hb : b ≤ 1 := by simpa using h.2 1
  have hc : c ≤ 1 := by simpa using h.2 2
  have hd : d ≤ 1 := by simpa using h.2 3
  have he : e ≤ 1 := by simpa using h.2 4
  have hcases : (a = 1 ∧ b = 1) ∨ (a = 1 ∧ c = 1) ∨ (a = 1 ∧ d = 1) ∨ (a = 1 ∧ e = 1) ∨
      (b = 1 ∧ c = 1) ∨ (b = 1 ∧ d = 1) ∨ (b = 1 ∧ e = 1) ∨ (c = 1 ∧ d = 1) ∨
      (c = 1 ∧ e = 1) ∨ (d = 1 ∧ e = 1) := by omega
  rcases hcases with ⟨x, y⟩ | ⟨x, y⟩ | ⟨x, y⟩ | ⟨x, y⟩ | ⟨x, y⟩ | ⟨x, y⟩ | ⟨x, y⟩ | ⟨x, y⟩ |
    ⟨x, y⟩ | ⟨x, y⟩
  · exact ⟨0, 1, by norm_num, by norm_num, by simpa using x, by simpa using y⟩
  · exact ⟨0, 2, by norm_num, by norm_num, by simpa using x, by simpa using y⟩
  · exact ⟨0, 3, by norm_num, by norm_num, by simpa using x, by simpa using y⟩
  · exact ⟨0, 4, by norm_num, by norm_num, by simpa using x, by simpa using y⟩
  · exact ⟨1, 2, by norm_num, by norm_num, by simpa using x, by simpa using y⟩
  · exact ⟨1, 3, by norm_num, by norm_num, by simpa using x, by simpa using y⟩
  · exact ⟨1, 4, by norm_num, by norm_num, by simpa using x, by simpa using y⟩
  · exact ⟨2, 3, by norm_num, by norm_num, by simpa using x, by simpa using y⟩
  · exact ⟨2, 4, by norm_num, by norm_num, by simpa using x, by simpa using y⟩
  · exact ⟨3, 4, by norm_num, by norm_num, by simpa using x, by simpa using y⟩

theorem firstTrial_slots (S : Scalar F D) (loss : Function F n) (s : State F n)
    (h : SlotsOK s.alpha_moves) : SlotsOK (firstTrial S loss s).alpha_moves :=
  slotsOK_set _ _ 0 (by norm_num) h

theorem accept_slots (S : Scalar F D) (s : State F n) (h : SlotsOK s.alpha_moves) :
    SlotsOK (accept S s).alpha_moves := by
  unfold accept
  simp only []
  split
  · exact slotsOK_clear _ (slotsOK_set _ _ 1 le_rfl h)
  · exact slotsOK_set _ _ 1 le_rfl h

theorem shrink_slots (S : Scalar F D) (loss : Function F n) (s : State F n)
    (h : SlotsOK s.alpha_moves) : SlotsOK (shrink S loss s).alpha_moves :=
  slotsOK_set _ _ _ (by have := h.2 s.idx; omega) h

theorem outerIter_slots (S : Scalar F D) (loss : Function F n) (fuel : ℕ) (s s' : State F n)
    (hs : SlotsOK s.alpha_moves) (h : outerIter S loss fuel s = some s') :
    SlotsOK s'.alpha_moves := by
  obtain ⟨t, rfl, ht, _⟩ := outerIter_inv S loss (fun u => SlotsOK u.alpha_moves)
    (fun u hu => accept_slots S u hu) (fun u hu => shrink_slots S loss u hu) fuel s s'
    (firstTrial_slots S loss s hs) h
  exact ht

/-- C15: each of the five history slots is at most `+1` at every point of
every run: at the entry of the loop, after each step that writes a slot (the
reset of line 48, the `+1` of line 54 with or without the clearing of lines 61
to 63, each decrement of line 70), at every head of the loop and at its exit.
So whenever the sum of the slots exceeds 1, as the growth condition of line 59
asks, at least two slots hold `+1`. -/
theorem history_slots_at_most_one (S : Scalar F D) (cloneOf : Parameter F n → Parameter F n)
    (pg : ProjectedGradient F n) (loss : Function F n) (stop : StopCriteria F n)
    (vec : Parameter F n) :
    SlotsOK (setup S cloneOf pg loss vec).alpha_moves ∧
    (∀ s : State F n, SlotsOK s.alpha_moves →
      SlotsOK (firstTrial S loss s).alpha_moves ∧ SlotsOK (s.alpha_moves.set s.idx 1) ∧
      SlotsOK (accept S s).alpha_moves ∧ SlotsOK (shrink S loss s).alpha_moves ∧
      SlotsOK (commit s).alpha_moves) ∧
    (∀ fuel j s, loopPrefix S loss stop fuel j (setup S cloneOf pg loss vec) = some s →
      SlotsOK s.alpha_moves) ∧
    (∀ fuel r, Minimize S cloneOf fuel pg loss stop vec = some r →
      SlotsOK r.final.alpha_moves) ∧
    (∀ l : List ℤ, SlotsOK l → 1 < moveSum l →
      ∃ i j, i < j ∧ j < 5 ∧ l.getD i 0 = 1 ∧ l.getD j 0 = 1) := by
  have h0 : SlotsOK (setup S cloneOf pg loss vec).alpha_moves := slotsOK_zero
  refine ⟨h0, fun s hs => ⟨firstTrial_slots S loss s hs, slotsOK_set _ _ 1 le_rfl hs,
    accept_slots S s hs, shrink_slots S loss s hs, hs⟩, fun fuel j s h => ?_, fun fuel r h => ?_,
    two_successes⟩
  · exact loopPrefix_inv S loss stop (fun u => SlotsOK u.alpha_moves) (fun _ hu => hu)
      (fun fuel u u' hu hstep => outerIter_slots S loss fuel u u' hu hstep) fuel j _ s h0 h
  · obtain ⟨hloop, _⟩ := Minimize_some S cloneOf fuel pg loss stop vec r h
    exact mainLoop_inv S loss stop (fun u => SlotsOK u.alpha_moves) (fun _ hu => hu)
      (fun fuel u u' hu hstep => outerIter_slots S loss fuel u u' hu hstep) fuel _ r.final h0
      hloop

/-- The run with `alpha0 = 0.6`: after five iterations the slots are
`[0, 0, -1, 1, 1]`, none above `+1`; and in the list `[1, 1, 0, 0, 0]` summed by
iteration 1 of that run the two slots holding `+1` are found. -/
theorem history_slots_at_most_one_witness :
    (∃ s, loopPrefix exactQ quadratic smallValue 6 5 growthStart = some s ∧
      s.alpha_moves = [0, 0, -1, 1, 1] ∧ SlotsOK s.alpha_moves) ∧
    ∃ i j, i < j ∧ j < 5 ∧ ([1, 1, 0, 0, 0] : List ℤ).getD i 0 = 1 ∧
      ([1, 1, 0, 0, 0] : List ℤ).getD j 0 = 1 := by
  have h5 : (loopPrefix exactQ quadratic smallValue 6 5 growthStart).map
      (fun s => s.alpha_moves) = some [0, 0, -1, 1, 1] := by decide!
  obtain ⟨s, hs, hm⟩ := Option.map_eq_some'.mp h5
  have w := history_slots_at_most_one exactQ (zeroClone 0) growthPG quadratic smallValue
    (fun _ => 10)
  exact ⟨⟨s, hs, hm, w.2.2.1 6 5 s hs⟩,
    w.2.2.2.2 [1, 1, 0, 0, 0] (slotsOK_set _ 1 1 le_rfl (slotsOK_set _ 0 1 le_rfl slotsOK_zero))
      (by decide)⟩

/-! ## Growth does not repeat at once -/

theorem growsStep_zero (S : Scalar F D) (loss : Function F n) (s : State F n)
    (h : s.alpha_moves = [0, 0, 0, 0, 0]) : growsStep S loss s = false := by
  have hk : s.k % 5 < 5 := Nat.mod_lt _ (by norm_num)
  have hm : (firstTrial S loss s).alpha_moves = ([0, 0, 0, 0, 0] : List ℤ).set (s.k % 5) 0 := by
    show s.alpha_moves.set (s.k % s.alpha_moves.length) 0 = _
    rw [h]; rfl
  have hi : (firstTrial S loss s).idx = s.k % 5 := by
    show s.k % s.alpha_moves.length = _
    rw [h]; rfl
  unfold growsStep
  rw [hm, hi]
  have : ¬ 1 < moveSum ((([0, 0, 0, 0, 0] : List ℤ).set (s.k % 5) 0).set (s.k % 5) 1) := by
    generalize s.k % 5 = i at hk
    interval_cases i <;> simp [moveSum_five]
  rw [decide_eq_false this, Bool.and_false]

/-- C13: growth never fires in two consecutive outer iterations.  If the
iteration that starts in `s` grows the step, it ends with all five slots at
zero, and the next iteration does not run the growth of lines 60 to 63,
whatever its decrease test gives: when it passes on the first try it commits
its trial step unchanged. -/
theorem no_consecutive_growth (S : Scalar F D) (loss : Function F n)
    (stop : StopCriteria F n) (fuel : ℕ) (s s' : State F n) (hlen : s.alpha_moves.length = 5)
    (hg : growsStep S loss s = true) (h : outerIter S loss fuel s = some s') :
    s'.current_alpha = S.div s.current_alpha s.pg.beta ∧
    s'.alpha_moves = [0, 0, 0, 0, 0] ∧
    growsStep S loss (noteStop stop s') = false ∧
    (∀ fuel' s'', firstTryPasses S loss (noteStop stop s') = true →
      outerIter S loss fuel' (noteStop stop s') = some s'' →
      s''.current_alpha = s'.current_alpha) := by
  unfold growsStep at hg
  rw [Bool.and_eq_true] at hg
  obtain ⟨hpass, hsum⟩ := hg
  have hsum' := of_decide_eq_true hsum
  rw [outerIter_first_try S loss fuel s hpass] at h
  cases h
  obtain ⟨g1, g2⟩ := accept_grow S (firstTrial S loss s) hsum'
  have hz : (commit (accept S (firstTrial S loss s))).alpha_moves = [0, 0, 0, 0, 0] := by
    show (accept S (firstTrial S loss s)).alpha_moves = _
    rw [g2]
    obtain ⟨a, b, c, d, e, hl⟩ := length_five
      ((firstTrial S loss s).alpha_moves.set (firstTrial S loss s).idx 1)
      (by
        rw [List.length_set]
        show (s.alpha_moves.set _ 0).length = 5
        rw [List.length_set]; exact hlen)
    rw [hl, clearMoves_five]
  have hno : growsStep S loss (noteStop stop (commit (accept S (firstTrial S loss s)))) = false :=
    growsStep_zero S loss _ hz
  refine ⟨g1, hz, hno, fun fuel' s'' hp h'' => ?_⟩
  rw [outerIter_first_try S loss fuel' _ hp] at h''
  cases h''
  unfold growsStep at hno
  rw [hp, Bool.true_and] at hno
  exact (accept_same S _ (of_decide_eq_false hno)).1

/-- The run with `alpha0 = 0.6`: iteration 1 grows the step to `6/5` and
iteration 2 does not grow it. -/
theorem no_consecutive_growth_witness :
    ∃ s s', loopPrefix exactQ quadratic smallValue 6 1 growthStart = some s ∧
      outerIter exactQ quadratic 4 (noteStop smallValue s) = some s' ∧
      s'.alpha_moves = [0, 0, 0, 0, 0] ∧
      growsStep exactQ quadratic (noteStop smallValue s') = false := by
  have h1 : (loopPrefix exactQ quadratic smallValue 6 1 growthStart).map
      (fun s => (s.alpha_moves.length, growsStep exactQ quadratic (noteStop smallValue s),
        (outerIter exactQ quadratic 4 (noteStop smallValue s)).isSome))
      = some (5, true, true) := by decide!
  obtain ⟨s, hs, hobs⟩ := Option.map_eq_some'.mp h1
  simp only [Prod.mk.injEq] at hobs
  obtain ⟨o1, o2, o3⟩ := hobs
  obtain ⟨s', hs'⟩ := Option.isSome_iff_exists.mp o3
  have w := no_consecutive_growth exactQ quadratic smallValue 4 (noteStop smallValue s) s' o1 o2
    hs'
  exact ⟨s, s', hs, hs', w.2.1, w.2.2.1⟩

/-! ## Backtracking -/

/-- The variables after `m` passes through the body of the backtracking loop. -/
theorem shrink_iterate (S : Scalar F D) (loss : Function F n) (u : State F n) (m : ℕ)
    (hidx : u.idx < u.alpha_moves.length) :
    Keeps u ((shrink S loss)^[m] u) ∧
    ((shrink S loss)^[m] u).alpha = (fun a => S.mul a u.pg.beta)^[m] u.alpha ∧
    ((shrink S loss)^[m] u).alpha_moves.length = u.alpha_moves.length ∧
    ((shrink S loss)^[m] u).alpha_moves.getD u.idx 0 = u.alpha_moves.getD u.idx 0 - m ∧
    (∀ j, j ≠ u.idx →
      ((shrink S loss)^[m] u).alpha_moves.getD j 0 = u.alpha_moves.getD j 0) := by
  induction m with
  | zero => exact ⟨Keeps.refl u, rfl, rfl, by simp, fun _ _ => rfl⟩
  | succ m ih =>
    obtain ⟨hk, ha, hl, hd, ho⟩ := ih
    rw [Function.iterate_succ_apply', Function.iterate_succ_apply']
    have hk' := shrink_keeps S loss ((shrink S loss)^[m] u)
    have hpg : ((shrink S loss)^[m] u).pg = u.pg := hk.1
    have hix : ((shrink S loss)^[m] u).idx = u.idx := hk.2.2.2.2.2.2.1
    have hmoves : (shrink S loss ((shrink S loss)^[m] u)).alpha_moves
        = ((shrink S loss)^[m] u).alpha_moves.set u.idx
            (((shrink S loss)^[m] u).alpha_moves.getD u.idx 0 - 1) := by
      show ((shrink S loss)^[m] u).alpha_moves.set ((shrink S loss)^[m] u).idx
        (((shrink S loss)^[m] u).alpha_moves.getD ((shrink S loss)^[m] u).idx 0 - 1) = _
      rw [hix]
    refine ⟨hk.trans hk', ?_, ?_, ?_, fun j hj => ?_⟩
    · show S.mul ((shrink S loss)^[m] u).alpha ((shrink S loss)^[m] u).pg.beta = _
      rw [ha, hpg]
    · rw [hmoves, List.length_set]; exact hl
    · rw [hmoves, getD_set_self _ _ _ (by rw [hl]; exact hidx), hd]
      push_cast
      ring
    · rw [hmoves, getD_set_ne _ _ _ _ (Ne.symm hj)]
      exact ho j hj

/-- The backtracking loop leaves after exactly `m` passes when the test fails
on the first `m` candidates and holds on the next one, given fuel for it. -/
theorem backtrack_exits (S : Scalar F D) (loss : Function F n) (m fuel : ℕ) (u : State F n)
    (hfail : ∀ j, j < m → goodStep S ((shrink S loss)^[j] u) = false)
    (hpass : goodStep S ((shrink S loss)^[m] u) = true) (hfuel : m < fuel) :
    backtrack S loss fuel u = some ((shrink S loss)^[m] u) := by
  induction m generalizing fuel u with
  | zero =>
    obtain ⟨f, rfl⟩ := Nat.exists_eq_succ_of_ne_zero (Nat.pos_iff_ne_zero.mp hfuel)
    rw [backtrack]
    unfold goodStep at hpass
    rw [Function.iterate_zero, id] at hpass
    rw [if_pos hpass]
    rfl
  | succ m ih =>
    obtain ⟨f, rfl⟩ := Nat.exists_eq_succ_of_ne_zero (Nat.pos_iff_ne_zero.mp (by omega : 0 < fuel))
    rw [backtrack]
    have h0 := hfail 0 (Nat.succ_pos m)
    unfold goodStep at h0
    rw [Function.iterate_zero, id] at h0
    rw [if_neg (by rw [h0]; exact Bool.false_ne_true)]
    rw [Function.iterate_succ_apply]
    exact ih f (shrink S loss u)
      (fun j hj => by
        have := hfail (j + 1) (Nat.succ_lt_succ hj)
        rwa [Function.iterate_succ_apply] at this)
      (by rwa [Function.iterate_succ_apply] at hpass) (by omega)

theorem iterate_mul_exact (a b : ℚ) (m : ℕ) :
    (fun x => exactQ.mul x b)^[m] a = a * b ^ m := by
  induction m with
  | zero => simp
  | succ m ih =>
    rw [Function.iterate_succ_apply', ih]
    show a * b ^ m * b = a * b ^ (m + 1)
    ring

/-- The variables after the first trial of the iteration that starts in `s`
and `m` passes through the body of the backtracking loop. -/
theorem backtracked_state (S : Scalar F D) (loss : Function F n) (s : State F n) (m : ℕ)
    (hlen : s.alpha_moves.length = 5) :
    ((shrink S loss)^[m] (firstTrial S loss s)).pg = s.pg ∧
    ((shrink S loss)^[m] (firstTrial S loss s)).stt = s.stt ∧
    ((shrink S loss)^[m] (firstTrial S loss s)).nxt = s.nxt ∧
    ((shrink S loss)^[m] (firstTrial S loss s)).ovalgrad = s.ovalgrad ∧
    (s.stt ≠ s.nxt →
      ((shrink S loss)^[m] (firstTrial S loss s)).mem.get s.stt = s.mem.get s.stt) ∧
    ((shrink S loss)^[m] (firstTrial S loss s)).alpha
      = (fun a => S.mul a s.pg.beta)^[m] s.current_alpha ∧
    ((shrink S loss)^[m] (firstTrial S loss s)).alpha_moves.getD (s.k % 5) 0 = -(m : ℤ) ∧
    (∀ j, j ≠ s.k % 5 →
      ((shrink S loss)^[m] (firstTrial S loss s)).alpha_moves.getD j 0
        = s.alpha_moves.getD j 0) := by
  have hk5 : s.k % 5 < 5 := Nat.mod_lt _ (by norm_num)
  have hi : (firstTrial S loss s).idx = s.k % 5 := by
    show s.k % s.alpha_moves.length = _
    rw [hlen]
  have hm : (firstTrial S loss s).alpha_moves = s.alpha_moves.set (s.k % 5) 0 := by
    show s.alpha_moves.set (s.k % s.alpha_moves.length) 0 = _
    rw [hlen]
  have hidx : (firstTrial S loss s).idx < (firstTrial S loss s).alpha_moves.length := by
    rw [hi, hm, List.length_set, hlen]; exact hk5
  obtain ⟨f1, f2, f3, f4, f5⟩ := firstTrial_keeps S loss s
  obtain ⟨⟨k1, k2, k3, k4, _, _, _, k8⟩, ha, _, hd, ho⟩ :=
    shrink_iterate S loss (firstTrial S loss s) m hidx
  refine ⟨k1.trans f1, k2.trans f2, k3.trans f3, k4.trans f4, fun hne => ?_, ha, ?_,
    fun j hj => ?_⟩
  · rw [← f5 hne, ← f2]
    exact k8 (by rw [f2, f3]; exact hne)
  · rw [hi] at hd
    rw [hd, hm, getD_set_self _ _ _ (by rw [hlen]; exact hk5)]
    ring
  · rw [ho j (by rw [hi]; exact hj), hm, getD_set_ne _ _ _ _ (Ne.symm hj)]

/-- C12: an outer iteration whose first trial fails the decrease test and whose
backtracking loop leaves after `m ≥ 1` shrinks (the test fails on the first
trial and on the candidates of the first `m - 1` shrinks, and holds on the
candidate of shrink `m`) returns, given fuel for `m` shrinks.  The committed
step size is `current_alpha` multiplied `m` times by `beta`, slot `k mod 5` of
the history holds `-m`, the other four slots are as the iteration found them,
and the committed point is the clipped step from the current point along the
gradient with that step size. -/
theorem backtracked_iteration (S : Scalar F D) (loss : Function F n) (s : State F n)
    (m fuel : ℕ) (hlen : s.alpha_moves.length = 5) (hm : 1 ≤ m)
    (hfail : ∀ j, j < m → goodStep S ((shrink S loss)^[j] (firstTrial S loss s)) = false)
    (hpass : goodStep S ((shrink S loss)^[m] (firstTrial S loss s)) = true)
    (hfuel : m < fuel) :
    ∃ s', outerIter S loss fuel s = some s' ∧
      s'.current_alpha = (fun a => S.mul a s.pg.beta)^[m] s.current_alpha ∧
      s'.alpha_moves.getD (s.k % 5) 0 = -(m : ℤ) ∧
      (∀ j, j ≠ s.k % 5 → s'.alpha_moves.getD j 0 = s.alpha_moves.getD j 0) ∧
      (s.stt ≠ s.nxt →
        s'.mem.get s'.stt = s.pg.projector.ClipPoint (fun i =>
          S.sub (s.mem.get s.stt i)
            (S.mul ((fun a => S.mul a s.pg.beta)^[m] s.current_alpha)
              (s.ovalgrad.gradient i)))) := by
  obtain ⟨b1, b2, b3, b4, b5, b6, b7, b8⟩ := backtracked_state S loss s m hlen
  have hrun : outerIter S loss fuel s
      = some (commit ((shrink S loss)^[m] (firstTrial S loss s))) := by
    have h0 := hfail 0 (by omega)
    unfold goodStep at h0
    rw [Function.iterate_zero, id] at h0
    unfold outerIter
    simp only []
    rw [if_neg (by rw [h0]; exact Bool.false_ne_true),
      backtrack_exits S loss m fuel _ hfail hpass hfuel]
    rfl
  refine ⟨_, hrun, b6, b7, b8, fun hne => ?_⟩
  obtain ⟨m', rfl⟩ := Nat.exists_eq_succ_of_ne_zero (by omega : m ≠ 0)
  obtain ⟨c1, c2, c3, c4, c5, c6, _, _⟩ := backtracked_state S loss s m' hlen
  have hc := shrink_candidate S loss ((shrink S loss)^[m'] (firstTrial S loss s))
    (by rw [c2, c3]; exact hne)
  rw [c3, c2, c5 hne, c4, c1, c6, ← Function.iterate_succ_apply' (shrink S loss)] at hc
  show (((shrink S loss)^[m' + 1] (firstTrial S loss s)).mem.emit _).get
    ((shrink S loss)^[m' + 1] (firstTrial S loss s)).nxt = _
  rw [Mem.get_emit, b3, hc, Function.iterate_succ_apply']

/-- The first iteration of the scenario of spec §8 started at `0`: the first
trial fails, one shrink gives a good step, and the committed step size is
`1 * (1/2)^1`, the slot holds `-1` and the committed point is `3`. -/
theorem backtracked_iteration_witness :
    ∃ s', outerIter exactQ quadratic 2 (scenarioStart 0) = some s' ∧
      s'.current_alpha = 1 * (1 / 2) ^ 1 ∧
      s'.alpha_moves.getD ((scenarioStart 0).k % 5) 0 = -((1 : ℕ) : ℤ) ∧
      s'.mem.get s'.stt 0 = 3 := by
  obtain ⟨s', hs', w1, w2, _, w4⟩ := backtracked_iteration exactQ quadratic (scenarioStart 0) 1 2
    rfl le_rfl
    (fun j hj => by
      obtain rfl : j = 0 := by omega
      decide!)
    (by decide!) (by norm_num)
  refine ⟨s', hs', ?_, w2, ?_⟩
  · rw [w1, iterate_mul_exact]
    rfl
  · rw [w4 (by decide)]
    decide!

/-! ## The step size when every iteration passes on the first try -/

/-- The last iteration of a prefix of the loop. -/
theorem loopPrefix_succ (S : Scalar F D) (loss : Function F n) (stop : StopCriteria F n)
    (fuel m : ℕ) (s0 s : State F n) (h : loopPrefix S loss stop fuel (m + 1) s0 = some s) :
    ∃ u f, loopPrefix S loss stop fuel m s0 = some u ∧ stopTest stop u = false ∧
      outerIter S loss f (noteStop stop u) = some s := by
  induction m generalizing fuel s0 with
  | zero =>
    cases fuel with
    | zero => simp [loopPrefix] at h
    | succ f =>
      rw [loopPrefix] at h
      split at h
      · cases h
      · rename_i hd
        obtain ⟨v, hv, hs⟩ := Option.bind_eq_some.mp h
        rw [loopPrefix] at hs
        cases hs
        exact ⟨s0, f, by rw [loopPrefix], by simpa using hd, hv⟩
  | succ m ih =>
    cases fuel with
    | zero => simp [loopPrefix] at h
    | succ f =>
      rw [loopPrefix] at h
      split at h
      · cases h
      · rename_i hd
        obtain ⟨v, hv, hs⟩ := Option.bind_eq_some.mp h
        obtain ⟨u, f', hu, hstop, hstep⟩ := ih f v hs
        refine ⟨u, f', ?_, hstop, hstep⟩
        rw [loopPrefix, if_neg hd, hv]
        exact hu

theorem even_phase (i : ℕ) (hi : i < 5) :
    ¬ 1 < moveSum ((([0, 0, 0, 0, 0] : List ℤ).set i 0).set i 1) ∧
    (([0, 0, 0, 0, 0] : List ℤ).set i 0).set i 1 = ([0, 0, 0, 0, 0] : List ℤ).set i 1 := by
  interval_cases i <;> simp [moveSum_five]

theorem odd_phase (i p : ℕ) (hi : i < 5) (hp : p < 5) (hne : p ≠ i) :
    1 < moveSum (((([0, 0, 0, 0, 0] : List ℤ).set p 1).set i 0).set i 1) ∧
    clearMoves (((([0, 0, 0, 0, 0] : List ℤ).set p 1).set i 0).set i 1) = [0, 0, 0, 0, 0] := by
  interval_cases i <;> interval_cases p <;>
    first
    | exact absurd rfl hne
    | simp [moveSum_five, clearMoves_five]

/-- One more iteration that passes on the first try. -/
theorem allPass_step (S : Scalar F D) (loss : Function F n) (stop : StopCriteria F n)
    (beta alpha0 : F) (m f : ℕ) (u s : State F n) (hu : AllPass S beta alpha0 m u)
    (hpass : firstTryPasses S loss (noteStop stop u) = true)
    (h : outerIter S loss f (noteStop stop u) = some s) :
    AllPass S beta alpha0 (m + 1) s ∧
    (growsStep S loss (noteStop stop u) = true ↔ m % 2 = 1) := by
  obtain ⟨hk, hb, ha, hmv⟩ := hu
  rw [outerIter_first_try S loss f _ hpass] at h
  cases h
  have hk5 : m % 5 < 5 := Nat.mod_lt _ (by norm_num)
  have hlen : u.alpha_moves.length = 5 := by
    rw [hmv]; split <;> simp
  have hi : (firstTrial S loss (noteStop stop u)).idx = m % 5 := by
    show u.k % u.alpha_moves.length = _
    rw [hlen, hk]
  have hm' : (firstTrial S loss (noteStop stop u)).alpha_moves = u.alpha_moves.set (m % 5) 0 := by
    show u.alpha_moves.set (u.k % u.alpha_moves.length) 0 = _
    rw [hlen, hk]
  have hgrow : growsStep S loss (noteStop stop u)
      = decide (1 < moveSum ((u.alpha_moves.set (m % 5) 0).set (m % 5) 1)) := by
    unfold growsStep
    rw [hpass, Bool.true_and, hm', hi]
  obtain ⟨a1, _, _, _, _, _, _, a8, _⟩ := accept_keeps S (firstTrial S loss (noteStop stop u))
  have hk' : (commit (accept S (firstTrial S loss (noteStop stop u)))).k = m + 1 := by
    show (accept S (firstTrial S loss (noteStop stop u))).k + 1 = m + 1
    rw [a8]
    show u.k + 1 = m + 1
    rw [hk]
  have hb' : (commit (accept S (firstTrial S loss (noteStop stop u)))).pg.beta = beta := by
    show (accept S (firstTrial S loss (noteStop stop u))).pg.beta = beta
    rw [a1]
    exact hb
  rcases Nat.mod_two_eq_zero_or_one m with he | ho
  · rw [if_pos he] at hmv
    obtain ⟨e1, e2⟩ := even_phase (m % 5) hk5
    obtain ⟨g1, g2⟩ := accept_same S (firstTrial S loss (noteStop stop u))
      (by rw [hm', hi, hmv]; exact e1)
    refine ⟨⟨hk', hb', ?_, ?_⟩, ?_⟩
    · show (accept S (firstTrial S loss (noteStop stop u))).alpha = _
      rw [g1]
      show u.current_alpha = _
      rw [ha, show (m + 1) / 2 = m / 2 by omega]
    · show (accept S (firstTrial S loss (noteStop stop u))).alpha_moves = _
      rw [g2, hm', hi, hmv, e2, if_neg (by omega), Nat.add_sub_cancel]
    · rw [hgrow, hmv, decide_eq_false e1]
      constructor
      · intro hc; exact absurd hc Bool.false_ne_true
      · intro hc; omega
  · rw [if_neg (by omega)] at hmv
    have hp5 : (m - 1) % 5 < 5 := Nat.mod_lt _ (by norm_num)
    obtain ⟨o1, o2⟩ := odd_phase (m % 5) ((m - 1) % 5) hk5 hp5 (by omega)
    obtain ⟨g1, g2⟩ := accept_grow S (firstTrial S loss (noteStop stop u))
      (by rw [hm', hi, hmv]; exact o1)
    refine ⟨⟨hk', hb', ?_, ?_⟩, ?_⟩
    · show (accept S (firstTrial S loss (noteStop stop u))).alpha = _
      rw [g1]
      show S.div u.current_alpha u.pg.beta = _
      rw [ha, hb, show (m + 1) / 2 = m / 2 + 1 by omega, Function.iterate_succ_apply']
    · show (accept S (firstTrial S loss (noteStop stop u))).alpha_moves = _
      rw [g2, hm', hi, hmv, o2, if_pos (by omega)]
    · rw [hgrow, hmv, decide_eq_true o1]
      exact ⟨fun _ => ho, fun _ => rfl⟩

theorem allPass_prefix (S : Scalar F D) (cloneOf : Parameter F n → Parameter F n)
    (pg : ProjectedGradient F n) (loss : Function F n) (stop : StopCriteria F n)
    (vec : Parameter F n) (fuel m : ℕ) (s : State F n)
    (hrun : loopPrefix S loss stop fuel m (setup S cloneOf pg loss vec) = some s)
    (hpass : ∀ j u, j < m → loopPrefix S loss stop fuel j (setup S cloneOf pg loss vec) = some u →
      firstTryPasses S loss (noteStop stop u) = true) :
    AllPass S pg.beta pg.alpha m s ∧
    (∀ j u, j < m → loopPrefix S loss stop fuel j (setup S cloneOf pg loss vec) = some u →
      (growsStep S loss (noteStop stop u) = true ↔ j % 2 = 1)) := by
  induction m generalizing s with
  | zero =>
    have hs : s = setup S cloneOf pg loss vec := by
      cases fuel <;> (rw [loopPrefix] at hrun; exact (Option.some.inj hrun).symm)
    subst hs
    exact ⟨⟨rfl, rfl, rfl, rfl⟩, fun j u hj _ => absurd hj (Nat.not_lt_zero j)⟩
  | succ m ih =>
    obtain ⟨u, f, hu, _, hstep⟩ := loopPrefix_succ S loss stop fuel m _ s hrun
    obtain ⟨hinv, hgrow⟩ := ih u hu (fun j v hj hv => hpass j v (Nat.lt_succ_of_lt hj) hv)
    obtain ⟨hinv', hg⟩ := allPass_step S loss stop pg.beta pg.alpha m f u s hinv
      (hpass m u (Nat.lt_succ_self m) hu) hstep
    refine ⟨hinv', fun j v hj hv => ?_⟩
    rcases Nat.lt_succ_iff_lt_or_eq.mp hj with hlt | heq
    · exact hgrow j v hlt hv
    · subst heq
      rw [hu] at hv
      cases hv
      exact hg

/-- C14: in a run in which each of the first `m` outer iterations passes the
decrease test on the first try, growth fires exactly in the iterations with
odd number `k = 1, 3, 5, ...` (counted from 0); the step size committed after
`m` iterations is `alpha0` divided `m / 2` times (rounded down) by `beta`; and
the history is all zero after every odd-numbered iteration, that is for even
`m`, while for odd `m` it holds one `+1`, in the slot of iteration `m - 1`. -/
theorem all_first_try_trajectory (S : Scalar F D) (cloneOf : Parameter F n → Parameter F n)
    (pg : ProjectedGradient F n) (loss : Function F n) (stop : StopCriteria F n)
    (vec : Parameter F n) (fuel m : ℕ) (s : State F n)
    (hrun : loopPrefix S loss stop fuel m (setup S cloneOf pg loss vec) = some s)
    (hpass : ∀ j u, j < m → loopPrefix S loss stop fuel j (setup S cloneOf pg loss vec) = some u →
      firstTryPasses S loss (noteStop stop u) = true) :
    s.k = m ∧
    s.current_alpha = (fun a => S.div a pg.beta)^[m / 2] pg.alpha ∧
    (m % 2 = 0 → s.alpha_moves = [0, 0, 0, 0, 0]) ∧
    (m % 2 = 1 → s.alpha_moves = ([0, 0, 0, 0, 0] : List ℤ).set ((m - 1) % 5) 1) ∧
    (∀ j u, j < m → loopPrefix S loss stop fuel j (setup S cloneOf pg loss vec) = some u →
      (growsStep S loss (noteStop stop u) = true ↔ j % 2 = 1)) := by
  obtain ⟨⟨h1, _, h3, h4⟩, h5⟩ := allPass_prefix S cloneOf pg loss stop vec fuel m s hrun hpass
  refine ⟨h1, h3, fun he => ?_, fun ho => ?_, h5⟩
  · rw [h4, if_pos he]
  · rw [h4, if_neg (by omega)]

theorem iterate_div_exact (a b : ℚ) (m : ℕ) :
    (fun x => exactQ.div x b)^[m] a = a / b ^ m := by
  induction m with
  | zero => simp
  | succ m ih =>
    rw [Function.iterate_succ_apply', ih]
    show a / b ^ m / b = a / b ^ (m + 1)
    rw [pow_succ, div_div]

/-- The run with `alpha0 = 1/8` from `10`: the first four iterations all pass
on the first try, and after them the step size is `(1/8) / (1/2)^2 = 1/2` and
the history is all zero. -/
theorem all_first_try_trajectory_witness :
    ∃ s, loopPrefix exactQ quadratic smallValue 6 4 slowStart = some s ∧
      s.k = 4 ∧ s.current_alpha = (1 / 8) / (1 / 2) ^ (4 / 2) ∧ s.current_alpha = 1 / 2 ∧
      s.alpha_moves = [0, 0, 0, 0, 0] := by
  have hsome : (loopPrefix exactQ quadratic smallValue 6 4 slowStart).isSome = true := by
    decide!
  obtain ⟨s, hs⟩ := Option.isSome_iff_exists.mp hsome
  have p0 : (loopPrefix exactQ quadratic smallValue 6 0 slowStart).map
      (fun u => firstTryPasses exactQ quadratic (noteStop smallValue u)) = some true := by
    decide!
  have p1 : (loopPrefix exactQ quadratic smallValue 6 1 slowStart).map
      (fun u => firstTryPasses exactQ quadratic (noteStop smallValue u)) = some true := by
    decide!
  have p2 : (loopPrefix exactQ quadratic smallValue 6 2 slowStart).map
      (fun u => firstTryPasses exactQ quadratic (noteStop smallValue u)) = some true := by
    decide!
  have p3 : (loopPrefix exactQ quadratic smallValue 6 3 slowStart).map
      (fun u => firstTryPasses exactQ quadratic (noteStop smallValue u)) = some true := by
    decide!
  obtain ⟨w1, w2, w3, _, _⟩ := all_first_try_trajectory exactQ (zeroClone 0) slowPG quadratic
    smallValue (fun _ => 10) 6 4 s hs
    (fun j u hj hu => by
      interval_cases j
      · rw [show loopPrefix exactQ quadratic smallValue 6 0 slowStart = some u from hu] at p0
        exact Option.some.inj p0
      · rw [show loopPrefix exactQ quadratic smallValue 6 1 slowStart = some u from hu] at p1
        exact Option.some.inj p1
      · rw [show loopPrefix exactQ quadratic smallValue 6 2 slowStart = some u from hu] at p2
        exact Option.some.inj p2
      · rw [show loopPrefix exactQ quadratic smallValue 6 3 slowStart = some u from hu] at p3
        exact Option.some.inj p3)
  have hval : s.current_alpha = (1 / 8) / (1 / 2) ^ (4 / 2) := by
    rw [w2, iterate_div_exact]
    rfl
  refine ⟨s, hs, w1, hval, ?_, w3 rfl⟩
  rw [hval]
  norm_num

/-! ## The calls of the stop criterion -/

theorem mainLoop_inv2 (S : Scalar F D) (loss : Function F n) (stop : StopCriteria F n)
    (P N : State F n → Prop) (hnote : ∀ s, P s → N (noteStop stop s))
    (hstep : ∀ fuel s s', N s → outerIter S loss fuel s = some s' → P s')
    (fuel : ℕ) (s t : State F n) (hs : P s) (h : mainLoop S loss stop fuel s = some t) :
    N t := by
  induction fuel generalizing s with
  | zero => simp [mainLoop] at h
  | succ fuel ih =>
    rw [mainLoop] at h
    split at h
    · cases h; exact hnote _ hs
    · obtain ⟨u, hu, ht⟩ := Option.bind_eq_some.mp h
      exact ih u (hstep fuel _ u (hnote _ hs) hu) ht

theorem loopPrefix_inv2 (S : Scalar F D) (loss : Function F n) (stop : StopCriteria F n)
    (P N : State F n → Prop) (hnote : ∀ s, P s → N (noteStop stop s))
    (hstep : ∀ fuel s s', N s → outerIter S loss fuel s = some s' → P s')
    (fuel j : ℕ) (s t : State F n) (hs : P s) (h : loopPrefix S loss stop fuel j s = some t) :
    P t := by
  induction j generalizing fuel s with
  | zero =>
    cases fuel <;> (rw [loopPrefix] at h; cases h; exact hs)
  | succ j ih =>
    cases fuel with
    | zero => simp [loopPrefix] at h
    | succ fuel =>
      rw [loopPrefix] at h
      split at h
      · cases h
      · obtain ⟨u, hu, ht⟩ := Option.bind_eq_some.mp h
        exact ih fuel u (hstep fuel _ u (hnote _ hs) hu) ht

theorem doneAfterCommit_cons (S : Scalar F D) (projector : Projection F n) (loss : Function F n)
    (stop : StopCriteria F n) (e : Event F n) (l : List (Event F n)) (he : e.isDone = false)
    (h : DoneAfterCommit S projector loss stop l) :
    DoneAfterCommit S projector loss stop (e :: l) := by
  intro pre p v g r rest heq
  cases pre with
  | nil =>
    rw [List.nil_append] at heq
    injection heq with h1 _
    subst h1
    simp [Event.isDone] at he
  | cons x pre =>
    rw [List.cons_append] at heq
    injection heq with _ h2
    exact h pre p v g r rest h2

theorem doneAfterCommit_done (S : Scalar F D) (projector : Projection F n) (loss : Function F n)
    (stop : StopCriteria F n) (p : Parameter F n) (b : Buf) (l : List (Event F n))
    (h : DoneAfterCommit S projector loss stop l) :
    DoneAfterCommit S projector loss stop
      (Event.done p (loss.Evaluate p (fun _ => S.zero)).1
          (projector.ClipGradient p (loss.Evaluate p (fun _ => S.zero)).2)
          (stop.Done p (loss.Evaluate p (fun _ => S.zero)).1
            (projector.ClipGradient p (loss.Evaluate p (fun _ => S.zero)).2)) ::
        Event.clipGradient p (loss.Evaluate p (fun _ => S.zero)).2 ::
        Event.evaluate b p :: l) := by
  intro pre p' v g r rest heq
  cases pre with
  | nil =>
    rw [List.nil_append] at heq
    injection heq with h1 h2
    injection h1 with hp hv hg hr
    subst hp hv hg hr
    exact ⟨b, l, h2.symm, rfl, rfl, rfl⟩
  | cons x pre =>
    rw [List.cons_append] at heq
    injection heq with _ h2
    exact doneAfterCommit_cons S projector loss stop (Event.clipGradient _ _) _ rfl
      (doneAfterCommit_cons S projector loss stop (Event.evaluate _ _) _ rfl h)
      pre p' v g r rest h2

theorem trial_afterTrial (S : Scalar F D) (loss : Function F n) (s : State F n) :
    AfterTrial S loss (trial S loss s) := by
  obtain ⟨raw, hlog, hget⟩ := trial_log S loss s
  refine ⟨Event.clipPoint s.nxt raw :: Event.newPoint s.nxt s.alpha :: s.mem.log, ?_,
    trial_value S loss s, ?_⟩
  · rw [hlog]
    show _ = Event.evaluate s.nxt ((trial S loss s).mem.get s.nxt) :: _
    rw [hget]
  · simp only [trial, evaluate, Mem.get_emit]
    rfl

theorem doneAfterCommit_nil (S : Scalar F D) (projector : Projection F n) (loss : Function F n)
    (stop : StopCriteria F n) : DoneAfterCommit S projector loss stop [] := by
  intro pre p v g r rest heq
  simp at heq

theorem doneAfterCommit_tail (S : Scalar F D) (projector : Projection F n) (loss : Function F n)
    (stop : StopCriteria F n) (e : Event F n) (l : List (Event F n))
    (h : DoneAfterCommit S projector loss stop (e :: l)) :
    DoneAfterCommit S projector loss stop l :=
  fun pre p v g r rest heq => h (e :: pre) p v g r rest (by rw [heq]; rfl)

theorem trial_done (S : Scalar F D) (projector : Projection F n) (loss : Function F n)
    (stop : StopCriteria F n) (s : State F n)
    (h : DoneAfterCommit S projector loss stop s.mem.log) :
    DoneAfterCommit S projector loss stop (trial S loss s).mem.log ∧
    ((trial S loss s).mem.log.filter Event.isDone).length
      = (s.mem.log.filter Event.isDone).length := by
  obtain ⟨raw, hlog, _⟩ := trial_log S loss s
  rw [hlog]
  refine ⟨?_, by simp [Event.isDone]⟩
  exact doneAfterCommit_cons S projector loss stop (Event.evaluate _ _) _ rfl
    (doneAfterCommit_cons S projector loss stop (Event.clipPoint _ _) _ rfl
      (doneAfterCommit_cons S projector loss stop (Event.newPoint _ _) _ rfl h))

/-- From a state in which `Done` has just been called to the next head of the loop. -/
theorem outerIter_head (S : Scalar F D) (loss : Function F n) (stop : StopCriteria F n)
    (fuel : ℕ) (s s' : State F n)
    (hd : DoneAfterCommit S s.pg.projector loss stop s.mem.log)
    (h : outerIter S loss fuel s = some s') :
    s'.pg = s.pg ∧ DoneAfterCommit S s.pg.projector loss stop s'.mem.log ∧
    (s'.mem.log.filter Event.isDone).length = (s.mem.log.filter Event.isDone).length ∧
    s'.k = s.k + 1 ∧ AtHead S loss s' := by
  obtain ⟨t, rfl, ⟨q1, q2, q3, q4, rest, q5, q6, q7⟩, _⟩ := outerIter_inv S loss
    (fun u => u.pg = s.pg ∧ u.k = s.k ∧ DoneAfterCommit S s.pg.projector loss stop u.mem.log ∧
      (u.mem.log.filter Event.isDone).length = (s.mem.log.filter Event.isDone).length ∧
      AfterTrial S loss u)
    (fun u hu => by
      obtain ⟨a1, _, a3, _, a5, a6, _, a8, _⟩ := accept_keeps S u
      obtain ⟨u1, u2, u3, u4, rest, u5, u6, u7⟩ := hu
      exact ⟨a1.trans u1, a8.trans u2, by rw [a6]; exact u3, by rw [a6]; exact u4,
        ⟨rest, by rw [a6, a3]; exact u5, by rw [a5, a6, a3]; exact u6,
          by rw [a5, a6, a3]; exact u7⟩⟩)
    (fun u hu => by
      obtain ⟨u1, u2, u3, u4, _⟩ := hu
      obtain ⟨t1, t2⟩ := trial_done S s.pg.projector loss stop
        { u with alpha := S.mul u.alpha u.pg.beta,
                 alpha_moves := u.alpha_moves.set u.idx (u.alpha_moves.getD u.idx 0 - 1) } u3
      exact ⟨u1, u2, t1, t2.trans u4, trial_afterTrial S loss _⟩)
    fuel s s'
    (by
      obtain ⟨t1, t2⟩ := trial_done S s.pg.projector loss stop
        { s with idx := s.k % s.alpha_moves.length, alpha := s.current_alpha,
                 alpha_moves := s.alpha_moves.set (s.k % s.alpha_moves.length) 0 } hd
      exact ⟨rfl, rfl, t1, t2, trial_afterTrial S loss _⟩)
    h
  refine ⟨q1, ?_, ?_, ?_, ?_⟩
  · exact doneAfterCommit_cons S s.pg.projector loss stop (Event.clipGradient _ _) _ rfl q3
  · show ((Event.clipGradient _ _ :: t.mem.log).filter Event.isDone).length = _
    rw [← q4]
    simp [Event.isDone]
  · show t.k + 1 = s.k + 1
    rw [q2]
  · refine ⟨t.nxt, rest, ?_, ?_, ?_⟩
    · show Event.clipGradient (t.mem.get t.nxt) t.nvalgrad.gradient :: t.mem.log
        = Event.clipGradient ((t.mem.emit _).get t.nxt)
            (loss.Evaluate ((t.mem.emit _).get t.nxt) (fun _ => S.zero)).2 ::
          Event.evaluate t.nxt ((t.mem.emit _).get t.nxt) :: rest
      rw [Mem.get_emit, q5, ← q7]
    · show t.nvalgrad.value = (loss.Evaluate ((t.mem.emit _).get t.nxt) (fun _ => S.zero)).1
      rw [Mem.get_emit]; exact q6
    · show t.pg.projector.ClipGradient (t.mem.get t.nxt) t.nvalgrad.gradient
        = t.pg.projector.ClipGradient ((t.mem.emit _).get t.nxt)
            (loss.Evaluate ((t.mem.emit _).get t.nxt) (fun _ => S.zero)).2
      rw [Mem.get_emit, q7]

/-- From a head of the loop to the state in which `Done` has just been called. -/
theorem noteStop_done (S : Scalar F D) (loss : Function F n) (stop : StopCriteria F n)
    (s : State F n) (hd : DoneAfterCommit S s.pg.projector loss stop s.mem.log)
    (hh : AtHead S loss s) :
    DoneAfterCommit S s.pg.projector loss stop (noteStop stop s).mem.log ∧
    ((noteStop stop s).mem.log.filter Event.isDone).length
      = (s.mem.log.filter Event.isDone).length + 1 := by
  obtain ⟨b, rest, h1, h2, h3⟩ := hh
  refine ⟨?_, by simp [noteStop, Event.isDone]⟩
  have hrest : DoneAfterCommit S s.pg.projector loss stop rest := by
    rw [h1] at hd
    exact doneAfterCommit_tail S _ loss stop _ _ (doneAfterCommit_tail S _ loss stop _ _ hd)
  have := doneAfterCommit_done S s.pg.projector loss stop (s.mem.get s.stt) b rest hrest
  show DoneAfterCommit S s.pg.projector loss stop
    (Event.done (s.mem.get s.stt) s.ovalgrad.value s.ovalgrad.gradient (stopTest stop s) ::
      s.mem.log)
  unfold stopTest
  rw [h1, h2, h3]
  exact this

/-- C16: every call `stop.Done(point, value, gradient)` receives the current
point, the value `Evaluate` returned at that point, and the gradient `Evaluate`
wrote at that point put through `ClipGradient(point, gradient)`: in the record
each call of `Done` comes directly after the `ClipGradient` call of a commit
(or of the set-up), itself directly after the `Evaluate` call on the same
point, so never after the `Evaluate` call of a rejected candidate, which is
followed by `newPoint`.  At the head of the loop the number of calls of `Done`
made so far is the number `k` of committed iterations, and in a run that
returns it is `k + 1`: one call before the first iteration and one after each
committed iteration. -/
theorem stop_calls (S : Scalar F D) (cloneOf : Parameter F n → Parameter F n) (fuel : ℕ)
    (pg : ProjectedGradient F n) (loss : Function F n) (stop : StopCriteria F n)
    (vec : Parameter F n) :
    (∀ j s, loopPrefix S loss stop fuel j (setup S cloneOf pg loss vec) = some s →
      DoneAfterCommit S pg.projector loss stop s.mem.log ∧
      (s.mem.log.filter Event.isDone).length = s.k ∧ AtHead S loss s) ∧
    (∀ r, Minimize S cloneOf fuel pg loss stop vec = some r →
      DoneAfterCommit S pg.projector loss stop r.log ∧
      (r.log.filter Event.isDone).length = r.final.k + 1) := by
  obtain ⟨e1, e2, e3, e4⟩ := setup_value S cloneOf pg loss vec
  have hstart : (setup S cloneOf pg loss vec).pg = pg ∧
      DoneAfterCommit S pg.projector loss stop (setup S cloneOf pg loss vec).mem.log ∧
      ((setup S cloneOf pg loss vec).mem.log.filter Event.isDone).length
        = (setup S cloneOf pg loss vec).k ∧
      AtHead S loss (setup S cloneOf pg loss vec) := by
    refine ⟨rfl, ?_, ?_, ⟨Buf.vec, [Event.clipPoint Buf.vec vec], ?_, ?_, ?_⟩⟩
    · rw [e4]
      exact doneAfterCommit_cons S _ loss stop (Event.clipGradient _ _) _ rfl
        (doneAfterCommit_cons S _ loss stop (Event.evaluate _ _) _ rfl
          (doneAfterCommit_cons S _ loss stop (Event.clipPoint _ _) _ rfl
            (doneAfterCommit_nil S _ loss stop)))
    · rw [e4]; rfl
    · rw [e4, e1]
    · rw [e2, e1]
    · rw [e3, e1]; rfl
  have hnote : ∀ s : State F n,
      (s.pg = pg ∧ DoneAfterCommit S pg.projector loss stop s.mem.log ∧
        (s.mem.log.filter Event.isDone).length = s.k ∧ AtHead S loss s) →
      ((noteStop stop s).pg = pg ∧
        DoneAfterCommit S pg.projector loss stop (noteStop stop s).mem.log ∧
        ((noteStop stop s).mem.log.filter Event.isDone).length = (noteStop stop s).k + 1) := by
    intro s hs
    obtain ⟨h1, h2, h3, h4⟩ := hs
    obtain ⟨n1, n2⟩ := noteStop_done S loss stop s (by rw [h1]; exact h2) h4
    rw [h1] at n1
    exact ⟨h1, n1, by rw [n2, h3]; rfl⟩
  have hstep : ∀ fuel (s s' : State F n),
      (s.pg = pg ∧ DoneAfterCommit S pg.projector loss stop s.mem.log ∧
        (s.mem.log.filter Event.isDone).length = s.k + 1) →
      outerIter S loss fuel s = some s' →
      (s'.pg = pg ∧ DoneAfterCommit S pg.projector loss stop s'.mem.log ∧
        (s'.mem.log.filter Event.isDone).length = s'.k ∧ AtHead S loss s') := by
    intro fuel s s' hs h
    obtain ⟨h1, h2, h3⟩ := hs
    obtain ⟨o1, o2, o3, o4, o5⟩ := outerIter_head S loss stop fuel s s' (by rw [h1]; exact h2) h
    rw [h1] at o2
    exact ⟨o1.trans h1, o2, by rw [o3, h3, o4], o5⟩
  refine ⟨fun j s h => ?_, fun r h => ?_⟩
  · exact (loopPrefix_inv2 S loss stop _ _ hnote hstep fuel j _ s hstart h).2
  · obtain ⟨hloop, _, _, _, _, hlog⟩ := Minimize_some S cloneOf fuel pg loss stop vec r h
    have := mainLoop_inv2 S loss stop _ _ hnote hstep fuel _ r.final hstart hloop
    rw [hlog]
    exact this.2

/-- The scenario of spec §8 started at `10`: two iterations are committed and
`Done` is called three times. -/
theorem stop_calls_witness :
    ∃ r, scenarioRun 4 10 = some r ∧ r.final.k = 2 ∧
      DoneAfterCommit exactQ (nonneg 1) quadratic zeroGradient r.log ∧
      (r.log.filter Event.isDone).length = r.final.k + 1 := by
  have h : (scenarioRun 4 10).map (fun r => r.final.k) = some 2 := by decide!
  obtain ⟨r, hr, hk⟩ := Option.map_eq_some'.mp h
  have w := (stop_calls exactQ (zeroClone 0) 4 scenarioPG quadratic zeroGradient
    (fun _ => 10)).2 r hr
  exact ⟨r, hr, hk, w.1, w.2⟩

/-! ## A shrink factor that does not shrink -/

theorem backtrack_none (S : Scalar F D) (loss : Function F n) (fuel : ℕ) (u : State F n)
    (h : ∀ m, goodStep S ((shrink S loss)^[m] u) = false) : backtrack S loss fuel u = none := by
  induction fuel generalizing u with
  | zero => rfl
  | succ fuel ih =>
    rw [backtrack]
    have h0 := h 0
    unfold goodStep at h0
    rw [Function.iterate_zero, id] at h0
    rw [if_neg (by rw [h0]; exact Bool.false_ne_true)]
    exact ih (shrink S loss u) (fun m => by
      have := h (m + 1)
      rwa [Function.iterate_succ_apply] at this)

theorem iterate_afterTrial (S : Scalar F D) (loss : Function F n) (s : State F n) (m : ℕ) :
    AfterTrial S loss ((shrink S loss)^[m] (firstTrial S loss s)) := by
  cases m with
  | zero => exact trial_afterTrial S loss _
  | succ m =>
    rw [Function.iterate_succ_apply']
    exact trial_afterTrial S loss _

/-- With a factor `beta` that leaves every step size unchanged, each pass
through the body of the backtracking loop rebuilds the candidate of the first
trial. -/
theorem stuck_candidate (S : Scalar F D) (loss : Function F n) (s : State F n) (m : ℕ)
    (hlen : s.alpha_moves.length = 5) (hne : s.stt ≠ s.nxt)
    (hbeta : ∀ a, S.mul a s.pg.beta = a) :
    ((shrink S loss)^[m] (firstTrial S loss s)).alpha = s.current_alpha ∧
    ((shrink S loss)^[m] (firstTrial S loss s)).mem.get s.nxt
      = (firstTrial S loss s).mem.get s.nxt := by
  have halpha : ∀ j, ((shrink S loss)^[j] (firstTrial S loss s)).alpha = s.current_alpha := by
    intro j
    rw [(backtracked_state S loss s j hlen).2.2.2.2.2.1]
    exact @Function.iterate_fixed F (fun a => S.mul a s.pg.beta) s.current_alpha (hbeta _) j
  refine ⟨halpha m, ?_⟩
  cases m with
  | zero => rfl
  | succ m =>
    obtain ⟨c1, c2, c3, c4, c5, _⟩ := backtracked_state S loss s m hlen
    have hc := shrink_candidate S loss ((shrink S loss)^[m] (firstTrial S loss s))
      (by rw [c2, c3]; exact hne)
    rw [c3, c2, c5 hne, c4, c1, halpha m, hbeta,
      ← Function.iterate_succ_apply' (shrink S loss)] at hc
    rw [hc, firstTrial_candidate S loss s hne]

/-- C17: with a shrink factor that leaves the step size unchanged (`beta = 1`),
if the first trial of an outer iteration fails the decrease test then every
retry rebuilds the same candidate with the same step size and fails again:
after any number `m` of retries the test is still false and only slot
`k mod 5` of the history has changed, to `-m`.  So the backtracking loop, and
with it the outer iteration, returns for no amount of fuel. -/
theorem backtracking_never_exits (S : Scalar F D) (loss : Function F n) (s : State F n)
    (hlen : s.alpha_moves.length = 5) (hne : s.stt ≠ s.nxt)
    (hbeta : ∀ a, S.mul a s.pg.beta = a) (hfail : firstTryPasses S loss s = false) :
    (∀ m, goodStep S ((shrink S loss)^[m] (firstTrial S loss s)) = false ∧
      ((shrink S loss)^[m] (firstTrial S loss s)).alpha = s.current_alpha ∧
      ((shrink S loss)^[m] (firstTrial S loss s)).mem.get s.nxt
        = (firstTrial S loss s).mem.get s.nxt ∧
      ((shrink S loss)^[m] (firstTrial S loss s)).alpha_moves.getD (s.k % 5) 0 = -(m : ℤ) ∧
      (∀ j, j ≠ s.k % 5 →
        ((shrink S loss)^[m] (firstTrial S loss s)).alpha_moves.getD j 0
          = s.alpha_moves.getD j 0)) ∧
    (∀ fuel, backtrack S loss fuel (firstTrial S loss s) = none) ∧
    (∀ fuel, outerIter S loss fuel s = none) := by
  have hgood : ∀ m, goodStep S ((shrink S loss)^[m] (firstTrial S loss s)) = false := by
    intro m
    obtain ⟨b1, b2, b3, b4, b5, _⟩ := backtracked_state S loss s m hlen
    obtain ⟨_, hcand⟩ := stuck_candidate S loss s m hlen hne hbeta
    obtain ⟨_, _, hv, _⟩ := iterate_afterTrial S loss s m
    obtain ⟨_, _, hv0, _⟩ := iterate_afterTrial S loss s 0
    rw [Function.iterate_zero, id] at hv0
    have f3 : (firstTrial S loss s).nxt = s.nxt := rfl
    unfold firstTryPasses at hfail
    unfold goodStep
    rw [isGoodStep_eq] at hfail ⊢
    rw [b1, b2, b3, b4, b5 hne, hv, b3, hcand]
    obtain ⟨_, f2, _, _, f5⟩ := firstTrial_keeps S loss s
    rw [hv0, f3, f2, f5 hne] at hfail
    exact hfail
  refine ⟨fun m => ⟨hgood m, (stuck_candidate S loss s m hlen hne hbeta).1,
    (stuck_candidate S loss s m hlen hne hbeta).2,
    (backtracked_state S loss s m hlen).2.2.2.2.2.2⟩,
    fun fuel => backtrack_none S loss fuel _ hgood, fun fuel => ?_⟩
  have h0 := hgood 0
  unfold goodStep at h0
  rw [Function.iterate_zero, id] at h0
  unfold outerIter
  simp only []
  rw [if_neg (by rw [h0]; exact Bool.false_ne_true), backtrack_none S loss fuel _ hgood]
  rfl

/-- The scenario of spec §8 started at `0` with `beta = 1`: the first trial `6`
is rejected, and the iteration does not return with fuel 50; after 7 retries
the step size is still `1`, the candidate still `6` and the slot holds `-7`. -/
theorem backtracking_never_exits_witness :
    outerIter exactQ quadratic 50 stuckStart = none ∧
    goodStep exactQ ((shrink exactQ quadratic)^[7] (firstTrial exactQ quadratic stuckStart))
      = false ∧
    ((shrink exactQ quadratic)^[7] (firstTrial exactQ quadratic stuckStart)).alpha = 1 ∧
    ((shrink exactQ quadratic)^[7] (firstTrial exactQ quadratic stuckStart)).mem.get
      stuckStart.nxt 0 = 6 ∧
    ((shrink exactQ quadratic)^[7] (firstTrial exactQ quadratic stuckStart)).alpha_moves.getD
      (stuckStart.k % 5) 0 = -((7 : ℕ) : ℤ) := by
  obtain ⟨w1, _, w3⟩ := backtracking_never_exits exactQ quadratic stuckStart rfl (by decide)
    (fun a => mul_one a) (by decide!)
  obtain ⟨g1, g2, g3, g4, _⟩ := w1 7
  refine ⟨w3 50, g1, g2, ?_, g4⟩
  rw [g3]
  decide!

/-! ## The point committed by a first-try iteration -/

theorem noteStop_get (stop : StopCriteria F n) (s : State F n) (b : Buf) :
    (noteStop stop s).mem.get b = s.mem.get b :=
  Mem.get_emit _ _ _

/-- C18: an iteration that passes the test on the first try returns and
commits the clipped step from the current point with the step size the
iteration started from (the one committed by the previous iteration; the
`alpha` of the optimizer at the entry of the loop), whether or not growth
fires: the iteration calls `newPoint` once, with that step size.  When growth
fires the committed step size is that step size `/ beta`, and the first
candidate the next iteration builds is the clipped step, from the new current
point, with the grown step size. -/
theorem first_try_commits_trial_point (S : Scalar F D) (loss : Function F n)
    (stop : StopCriteria F n) (fuel : ℕ) (s : State F n) (hne : s.stt ≠ s.nxt)
    (hpass : firstTryPasses S loss s = true) :
    (∀ cloneOf pg vec, (setup S cloneOf pg loss vec).current_alpha = pg.alpha) ∧
    ∃ s', outerIter S loss fuel s = some s' ∧
      s'.mem.get s'.stt = s.pg.projector.ClipPoint (fun i =>
        S.sub (s.mem.get s.stt i) (S.mul s.current_alpha (s.ovalgrad.gradient i))) ∧
      (∃ raw g, s'.mem.log = Event.clipGradient (s'.mem.get s'.stt) g ::
        Event.evaluate s.nxt (s'.mem.get s'.stt) :: Event.clipPoint s.nxt raw ::
        Event.newPoint s.nxt s.current_alpha :: s.mem.log) ∧
      (growsStep S loss s = false → s'.current_alpha = s.current_alpha) ∧
      (growsStep S loss s = true →
        s'.current_alpha = S.div s.current_alpha s.pg.beta ∧
        (firstTrial S loss (noteStop stop s')).mem.get s'.nxt
          = s.pg.projector.ClipPoint (fun i =>
              S.sub (s'.mem.get s'.stt i)
                (S.mul (S.div s.current_alpha s.pg.beta) (s'.ovalgrad.gradient i)))) := by
  refine ⟨fun _ _ _ => rfl, _, outerIter_first_try S loss fuel s hpass, ?_, ?_, ?_, ?_⟩
  · show ((accept S (firstTrial S loss s)).mem.emit _).get (accept S (firstTrial S loss s)).nxt = _
    obtain ⟨_, _, a3, _, _, a6, _⟩ := accept_keeps S (firstTrial S loss s)
    rw [Mem.get_emit, a3, a6]
    exact firstTrial_candidate S loss s hne
  · obtain ⟨_, _, a3, _, a5, a6, _⟩ := accept_keeps S (firstTrial S loss s)
    obtain ⟨raw, hlog, hget⟩ := trial_log S loss
      { s with idx := s.k % s.alpha_moves.length, alpha := s.current_alpha,
               alpha_moves := s.alpha_moves.set (s.k % s.alpha_moves.length) 0 }
    refine ⟨raw, (firstTrial S loss s).nvalgrad.gradient, ?_⟩
    show Event.clipGradient ((accept S (firstTrial S loss s)).mem.get
        (accept S (firstTrial S loss s)).nxt) (accept S (firstTrial S loss s)).nvalgrad.gradient ::
      (accept S (firstTrial S loss s)).mem.log
      = Event.clipGradient (((accept S (firstTrial S loss s)).mem.emit _).get
          (accept S (firstTrial S loss s)).nxt) _ ::
        Event.evaluate s.nxt (((accept S (firstTrial S loss s)).mem.emit _).get
          (accept S (firstTrial S loss s)).nxt) :: _
    rw [Mem.get_emit, a3, a5, a6]
    have hlog' : (firstTrial S loss s).mem.log
        = Event.evaluate s.nxt (s.pg.projector.ClipPoint raw) :: Event.clipPoint s.nxt raw ::
          Event.newPoint s.nxt s.current_alpha :: s.mem.log := hlog
    have hget' : (firstTrial S loss s).mem.get s.nxt = s.pg.projector.ClipPoint raw := hget
    have hn : (firstTrial S loss s).nxt = s.nxt := rfl
    rw [hn, hlog', hget']
  · intro hg
    unfold growsStep at hg
    rw [hpass, Bool.true_and] at hg
    exact (accept_same S _ (of_decide_eq_false hg)).1
  · intro hg
    unfold growsStep at hg
    rw [hpass, Bool.true_and] at hg
    obtain ⟨g1, _⟩ := accept_grow S _ (of_decide_eq_true hg)
    have hal : (commit (accept S (firstTrial S loss s))).current_alpha
        = S.div s.current_alpha s.pg.beta := g1
    refine ⟨hal, ?_⟩
    obtain ⟨a1, a2, a3, _⟩ := accept_keeps S (firstTrial S loss s)
    have hstt : (commit (accept S (firstTrial S loss s))).stt = s.nxt := a3
    have hnxt : (commit (accept S (firstTrial S loss s))).nxt = s.stt := a2
    have hpg : (commit (accept S (firstTrial S loss s))).pg = s.pg := a1
    have hc := firstTrial_candidate S loss
      (noteStop stop (commit (accept S (firstTrial S loss s))))
      (by
        show (commit (accept S (firstTrial S loss s))).stt
          ≠ (commit (accept S (firstTrial S loss s))).nxt
        rw [hstt, hnxt]; exact fun e => hne e.symm)
    have e1 : (noteStop stop (commit (accept S (firstTrial S loss s)))).nxt
        = (commit (accept S (firstTrial S loss s))).nxt := rfl
    have e2 : (noteStop stop (commit (accept S (firstTrial S loss s)))).stt
        = (commit (accept S (firstTrial S loss s))).stt := rfl
    have e3 : (noteStop stop (commit (accept S (firstTrial S loss s)))).pg
        = (commit (accept S (firstTrial S loss s))).pg := rfl
    have e4 : (noteStop stop (commit (accept S (firstTrial S loss s)))).current_alpha
        = (commit (accept S (firstTrial S loss s))).current_alpha := rfl
    have e5 : (noteStop stop (commit (accept S (firstTrial S loss s)))).ovalgrad
        = (commit (accept S (firstTrial S loss s))).ovalgrad := rfl
    rw [e1, e2, e3, e4, e5, noteStop_get, hal, hpg] at hc
    exact hc

/-- Iteration 1 of the run with `alpha0 = 0.6`: it passes on the first try and
grows the step; the point it commits is the step from `8/5` with the old step
size `3/5`, which is `82/25`, and the committed step size is `6/5`. -/
theorem first_try_commits_trial_point_witness :
    ∃ s s', loopPrefix exactQ quadratic smallValue 6 1 growthStart = some s ∧
      outerIter exactQ quadratic 4 (noteStop smallValue s) = some s' ∧
      s'.mem.get s'.stt 0 = 82 / 25 ∧ s'.current_alpha = 6 / 5 := by
  have h1 : (loopPrefix exactQ quadratic smallValue 6 1 growthStart).map
      (fun s => (firstTryPasses exactQ quadratic (noteStop smallValue s),
        growsStep exactQ quadratic (noteStop smallValue s),
        decide ((noteStop smallValue s).stt ≠ (noteStop smallValue s).nxt)))
      = some (true, true, true) := by decide!
  have h2 : (loopPrefix exactQ quadratic smallValue 6 1 growthStart).map
      (fun s => ((outerIter exactQ quadratic 4 (noteStop smallValue s)).map
        (fun s' => (s'.mem.get s'.stt 0, s'.current_alpha)))) = some (some (82 / 25, 6 / 5)) := by
    decide!
  obtain ⟨s, hs, hobs⟩ := Option.map_eq_some'.mp h1
  simp only [Prod.mk.injEq] at hobs
  obtain ⟨o1, o2, o3⟩ := hobs
  obtain ⟨_, s', hs', _⟩ := first_try_commits_trial_point exactQ quadratic smallValue 4
    (noteStop smallValue s) (of_decide_eq_true o3) o1
  rw [hs, Option.map_some', hs', Option.map_some'] at h2
  have h3 := Option.some.inj (Option.some.inj h2)
  simp only [Prod.mk.injEq] at h3
  exact ⟨s, s', hs, hs', h3.1, h3.2⟩

/-! ## Stationary points -/

/-- C19 fails as stated.  Scenario of spec §8 started at the minimizer `3`
with a stop criterion that never fires: at the head of iteration 1 the clipped
gradient is zero and the first trial passes, and the iteration leaves the
point `3` and the value `0` unchanged; but it finds `+1` in slot 0, so growth
fires and after the iteration slot 1 of the history holds `0`, not `+1`, and
the step size has grown from `1` to `2`. -/
theorem stationary_growth_clears_slot :
    (loopPrefix exactQ quadratic neverStop 4 1 (scenarioStart 3)).map
      (fun s => (s.k, s.ovalgrad.gradient 0, s.mem.get s.stt 0, s.alpha_moves,
        firstTryPasses exactQ quadratic (noteStop neverStop s)))
        = some (1, 0, 3, [1, 0, 0, 0, 0], true) ∧
    (loopPrefix exactQ quadratic neverStop 4 2 (scenarioStart 3)).map
      (fun s => (s.alpha_moves.getD 1 0, s.alpha_moves, s.mem.get s.stt 0, s.ovalgrad.value,
        s.current_alpha)) = some (0, [0, 0, 0, 0, 0], 3, 0, 2) :=
  ⟨by decide!, by decide!⟩

theorem foldl_zero_terms (S : Scalar F D) (f : Fin n → F) (l : List (Fin n))
    (h4 : ∀ a, S.mul S.zero a = S.zero) (h5 : S.toD S.zero = S.zeroD)
    (h6 : S.addD S.zeroD S.zeroD = S.zeroD) :
    l.foldl (fun acc i => S.addD acc (S.toD (S.mul S.zero (f i)))) S.zeroD = S.zeroD := by
  induction l with
  | nil => rfl
  | cons i l ih => rw [List.foldl_cons, h4, h5, h6, ih]

/-- At a stationary point the first trial rebuilds the current point and passes
the test. -/
theorem stationary_first_trial (S : Scalar F D) (loss : Function F n) (s : State F n)
    (hne : s.stt ≠ s.nxt) (hgrad : s.ovalgrad.gradient = fun _ => S.zero)
    (hclip : s.pg.projector.ClipPoint (s.mem.get s.stt) = s.mem.get s.stt)
    (hval : s.ovalgrad.value = (loss.Evaluate (s.mem.get s.stt) (fun _ => S.zero)).1)
    (h1 : ∀ a, S.mul a S.zero = S.zero) (h2 : ∀ a, S.sub a S.zero = a)
    (h3 : ∀ a, S.sub a a = S.zero) (h4 : ∀ a, S.mul S.zero a = S.zero)
    (h5 : S.toD S.zero = S.zeroD) (h6 : S.addD S.zeroD S.zeroD = S.zeroD)
    (h7 : S.ofD S.zeroD = S.zero) (h8 : S.le S.zero S.zero = true) :
    (firstTrial S loss s).mem.get s.nxt = s.mem.get s.stt ∧
    (firstTrial S loss s).nvalgrad.value = s.ovalgrad.value ∧
    firstTryPasses S loss s = true := by
  have hc : (firstTrial S loss s).mem.get s.nxt = s.mem.get s.stt := by
    rw [firstTrial_candidate S loss s hne, hgrad]
    simp only [h1, h2]
    exact hclip
  have hv : (firstTrial S loss s).nvalgrad.value = s.ovalgrad.value := by
    have := trial_value S loss
      { s with idx := s.k % s.alpha_moves.length, alpha := s.current_alpha,
               alpha_moves := s.alpha_moves.set (s.k % s.alpha_moves.length) 0 }
    have hn : (firstTrial S loss s).nxt = s.nxt := rfl
    have hv' : (firstTrial S loss s).nvalgrad.value
        = (loss.Evaluate ((firstTrial S loss s).mem.get (firstTrial S loss s).nxt)
            (fun _ => S.zero)).1 := this
    rw [hv', hn, hc, hval]
  refine ⟨hc, hv, ?_⟩
  obtain ⟨f1, f2, f3, f4, f5⟩ := firstTrial_keeps S loss s
  unfold firstTryPasses
  rw [isGoodStep_eq, f1, f2, f3, f4, f5 hne, hc, hv, hgrad]
  unfold sufficientDecrease decreaseBound
  rw [h3, foldl_zero_terms S _ _ h4 h5 h6, h7, h1]
  exact h8

/-- C19 as amended: at a stationary point (the clipped gradient at the current
point is zero at every index, `ClipPoint` leaves the current point unchanged,
`ovalgrad.value` is the value of the objective there), in any arithmetic in
which `x*0 = 0*x = 0`, `x - 0 = x`, `x - x = 0`, `0 + 0 = 0`, the conversions
of `0` are `0` and `0 <= 0`, and for every step size: the trial candidate
equals the current point, the decrease test holds, the iteration is accepted on
the first try, and the committed point and value are unchanged.  Slot
`k mod 5` of the history is `+1` after the iteration unless growth fires; when
growth fires all five slots are zero and the step size is divided by `beta`. -/
theorem stationary_point_accepted (S : Scalar F D) (loss : Function F n) (fuel : ℕ)
    (s : State F n) (hlen : s.alpha_moves.length = 5)
    (hne : s.stt ≠ s.nxt) (hgrad : s.ovalgrad.gradient = fun _ => S.zero)
    (hclip : s.pg.projector.ClipPoint (s.mem.get s.stt) = s.mem.get s.stt)
    (hval : s.ovalgrad.value = (loss.Evaluate (s.mem.get s.stt) (fun _ => S.zero)).1)
    (h1 : ∀ a, S.mul a S.zero = S.zero) (h2 : ∀ a, S.sub a S.zero = a)
    (h3 : ∀ a, S.sub a a = S.zero) (h4 : ∀ a, S.mul S.zero a = S.zero)
    (h5 : S.toD S.zero = S.zeroD) (h6 : S.addD S.zeroD S.zeroD = S.zeroD)
    (h7 : S.ofD S.zeroD = S.zero) (h8 : S.le S.zero S.zero = true) :
    (firstTrial S loss s).mem.get s.nxt = s.mem.get s.stt ∧
    firstTryPasses S loss s = true ∧
    ∃ s', outerIter S loss fuel s = some s' ∧
      s'.mem.get s'.stt = s.mem.get s.stt ∧
      s'.ovalgrad.value = s.ovalgrad.value ∧
      (growsStep S loss s = false →
        s'.alpha_moves.getD (s.k % 5) 0 = 1 ∧ s'.current_alpha = s.current_alpha) ∧
      (growsStep S loss s = true →
        s'.alpha_moves = [0, 0, 0, 0, 0] ∧
        s'.current_alpha = S.div s.current_alpha s.pg.beta) := by
  obtain ⟨hc, hv, hpass⟩ := stationary_first_trial S loss s hne hgrad hclip hval h1 h2 h3 h4 h5
    h6 h7 h8
  obtain ⟨_, _, a3, _, a5, a6, _⟩ := accept_keeps S (firstTrial S loss s)
  have hk5 : s.k % 5 < 5 := Nat.mod_lt _ (by norm_num)
  have hi : (firstTrial S loss s).idx = s.k % 5 := by
    show s.k % s.alpha_moves.length = _
    rw [hlen]
  have hm : (firstTrial S loss s).alpha_moves = s.alpha_moves.set (s.k % 5) 0 := by
    show s.alpha_moves.set (s.k % s.alpha_moves.length) 0 = _
    rw [hlen]
  refine ⟨hc, hpass, _, outerIter_first_try S loss fuel s hpass, ?_, ?_, fun hg => ?_,
    fun hg => ?_⟩
  · show ((accept S (firstTrial S loss s)).mem.emit _).get (accept S (firstTrial S loss s)).nxt = _
    rw [Mem.get_emit, a3, a6]
    exact hc
  · show (accept S (firstTrial S loss s)).nvalgrad.value = _
    rw [a5]; exact hv
  · unfold growsStep at hg
    rw [hpass, Bool.true_and] at hg
    obtain ⟨g1, g2⟩ := accept_same S _ (of_decide_eq_false hg)
    refine ⟨?_, g1⟩
    show (accept S (firstTrial S loss s)).alpha_moves.getD (s.k % 5) 0 = 1
    rw [g2, hi, getD_set_self _ _ _ (by rw [hm, List.length_set, hlen]; exact hk5)]
  · unfold growsStep at hg
    rw [hpass, Bool.true_and] at hg
    obtain ⟨g1, g2⟩ := accept_grow S _ (of_decide_eq_true hg)
    refine ⟨?_, g1⟩
    show (accept S (firstTrial S loss s)).alpha_moves = _
    rw [g2]
    obtain ⟨a, b, c, d, e, hl⟩ := length_five
      ((firstTrial S loss s).alpha_moves.set (firstTrial S loss s).idx 1)
      (by rw [List.length_set, hm, List.length_set]; exact hlen)
    rw [hl, clearMoves_five]

/-- The scenario of spec §8 started at the minimizer `3`: the first iteration
is accepted on the first try, leaves the point and the value unchanged, and
slot 0 of the history holds `+1` after it. -/
theorem stationary_point_accepted_witness :
    firstTryPasses exactQ quadratic (scenarioStart 3) = true ∧
    ∃ s', outerIter exactQ quadratic 1 (scenarioStart 3) = some s' ∧
      s'.mem.get s'.stt = (scenarioStart 3).mem.get (scenarioStart 3).stt ∧
      s'.ovalgrad.value = (scenarioStart 3).ovalgrad.value ∧
      s'.alpha_moves.getD ((scenarioStart 3).k % 5) 0 = 1 := by
  obtain ⟨_, w2, s', hs', w3, w4, w5, _⟩ := stationary_point_accepted exactQ quadratic 1
    (scenarioStart 3) rfl (by decide)
    (funext (by decide! : ∀ i : Fin 1, (scenarioStart 3).ovalgrad.gradient i = exactQ.zero))
    (funext (by decide! : ∀ i : Fin 1,
      (scenarioStart 3).pg.projector.ClipPoint
        ((scenarioStart 3).mem.get (scenarioStart 3).stt) i
        = (scenarioStart 3).mem.get (scenarioStart 3).stt i))
    (by decide!)
    (fun a => mul_zero a) (fun a => sub_zero a) (fun a => sub_self a) (fun a => zero_mul a)
    rfl (add_zero (0 : ℚ)) rfl (by decide!)
  exact ⟨w2, s', hs', w3, w4, (w5 (by decide!)).1⟩

/-! ## The precision of the decrease test -/

/-- C20 fails as stated: the products are formed in `float32`.  With `float32`
inputs (gradient `(1 + 2^-23, -1)`, candidate `(1 + 2^-23, 1 + 2^-22)`, current
point the origin, values `0` and `2^-47`, `sigma = 1`) the first product
`(1 + 2^-23)^2` is rounded to `1 + 2^-22` before it is converted, so the sum
`isGoodStep` accumulates is `0` and the step is rejected; the inner product
computed and accumulated in `float64` is `2^-46`, with which the step passes. -/
theorem products_in_single_precision :
    (∀ i, roundBits 24 (gradA i) = gradA i ∧ roundBits 24 (pointA i) = pointA i) ∧
    roundBits 24 (1 / 2 ^ 47) = 1 / 2 ^ 47 ∧
    accumulateD ieee (productsF ieee gradA (fun _ => 0) pointA) = 0 ∧
    doubleInnerProduct gradA (fun _ => 0) pointA = 1 / 2 ^ 46 ∧
    isGoodStep ieee unitPG (memOf pointA) Buf.vec Buf.clone
      { value := 0, gradient := gradA } { value := 1 / 2 ^ 47, gradient := gradA } = false ∧
    doubleTest 1 gradA (fun _ => 0) pointA 0 (1 / 2 ^ 47) = true :=
  ⟨by decide!, by decide!, by decide!, by decide!, by decide!, by decide!⟩

/-- C20 as amended: in `isGoodStep` each product
`gradient_i * (candidate_i - current_i)` is formed in the element type
(`float32`: the difference and the product are `float32` operations) and only
then converted to `float64`; the running sum is accumulated in `float64`, and
the sum is converted back to `float32` before it is multiplied by `sigma`.  So
the result of the test depends on the vectors only through these `float32`
products. -/
theorem decrease_test_precision (S : Scalar F D) :
    (∀ (pg : ProjectedGradient F n) (m : Mem F n) (owts nwts : Buf) (ovg nvg : vgpair F n),
      isGoodStep S pg m owts nwts ovg nvg
        = S.le (S.sub nvg.value ovg.value)
            (S.mul pg.sigma
              (S.ofD (accumulateD S (productsF S ovg.gradient (m.get owts) (m.get nwts)))))) ∧
    (∀ (pg : ProjectedGradient F n) (m m' : Mem F n) (owts nwts : Buf)
      (ovg ovg' nvg : vgpair F n), ovg'.value = ovg.value →
      (∀ i, productsF S ovg'.gradient (m'.get owts) (m'.get nwts) i
        = productsF S ovg.gradient (m.get owts) (m.get nwts) i) →
      isGoodStep S pg m' owts nwts ovg' nvg = isGoodStep S pg m owts nwts ovg nvg) := by
  have h1 : ∀ (pg : ProjectedGradient F n) (m : Mem F n) (owts nwts : Buf)
      (ovg nvg : vgpair F n),
      isGoodStep S pg m owts nwts ovg nvg
        = S.le (S.sub nvg.value ovg.value)
            (S.mul pg.sigma
              (S.ofD (accumulateD S (productsF S ovg.gradient (m.get owts) (m.get nwts))))) :=
    fun _ _ _ _ _ _ => rfl
  refine ⟨h1, fun pg m m' owts nwts ovg ovg' nvg hv hp => ?_⟩
  rw [h1, h1, hv, funext hp]

/-- Two inputs with the same `float32` products, `(1 + 2^-22, -(1 + 2^-22))`,
get the same answer from `isGoodStep`, although their inner products computed
in `float64` differ (`2^-46` and `0`). -/
theorem decrease_test_precision_witness :
    isGoodStep ieee unitPG (memOf pointB) Buf.vec Buf.clone
        { value := 0, gradient := gradB } { value := 1 / 2 ^ 47, gradient := gradB }
      = isGoodStep ieee unitPG (memOf pointA) Buf.vec Buf.clone
        { value := 0, gradient := gradA } { value := 1 / 2 ^ 47, gradient := gradB } ∧
    doubleInnerProduct gradA (fun _ => 0) pointA = 1 / 2 ^ 46 ∧
    doubleInnerProduct gradB (fun _ => 0) pointB = 0 :=
  ⟨(decrease_test_precision ieee).2 unitPG (memOf pointA) (memOf pointB) Buf.vec Buf.clone
      { value := 0, gradient := gradA } { value := 0, gradient := gradB }
      { value := 1 / 2 ^ 47, gradient := gradB } rfl (by decide!),
    by decide!, by decide!⟩

end ProjGrad
